import Mathlib

/-
  Verification development for the config-engine repository.

  Shallow embedding of the three pure core components:
    * `SchemaValidator.validate`        (src/apps/schema_registry/validators.py)
    * `ConfigResolver.resolve`          (src/apps/config_core/services/config_resolver.py)
    * `OverrideValidationService.validate`
                                        (src/apps/config_core/services/override_validator.py)

  Modelling conventions:
    * JSON-like Python values are the inductive `Value`; Python dicts are
      string-keyed association lists in insertion order (CPython dicts preserve
      insertion order and have unique keys).  Python floats are modelled as
      rationals (the values flowing through this system come from JSON, so
      NaN/inf never occur).  `bool` is a separate constructor, mirroring the
      source's explicit special-casing of `bool` as a subclass of `int`.
    * Code that can raise returns `Except PyExn`; `deepcopy` is the identity on
      pure values.
    * Error dicts carry a `field` path and a machine-readable `code`; the
      human-readable `message` strings are not modelled (no claim mentions
      them).  For `SchemaValidator`, whose errors have only `field` and
      `message`, an error is modelled by its `field` path alone.
-/

set_option maxHeartbeats 1000000

namespace ConfigEngine

/-- A JSON-like Python value. `vbool` is separate from `vint` because the
source special-cases `bool` (a subclass of `int` in Python) everywhere. -/
inductive Value where
  | vnone
  | vbool (b : Bool)
  | vint (n : Int)
  | vfloat (q : ℚ)
  | vstr (s : String)
  | vlist (elems : List Value)
  | vdict (entries : List (String × Value))

/-- A Python dict with string keys, in insertion order. -/
abbrev PyDict := List (String × Value)

/-- `d[k]` / `k in d` for a Python dict: first (unique, in CPython) entry. -/
def lookupKey : List (String × α) → String → Option α
  | [], _ => none
  | (k, v) :: rest, key => if k = key then some v else lookupKey rest key

/-- `k in d` for a Python dict. -/
def hasKey (d : List (String × α)) (key : String) : Bool :=
  (lookupKey d key).isSome

/-- `d.get(k)`: returns `None` both when the key is absent and when the stored
value is JSON null, so both collapse to `none`. -/
def pyGet (d : PyDict) (key : String) : Option Value :=
  match lookupKey d key with
  | some Value.vnone => none
  | v => v

/-- Python truthiness of a value (`if x:`). -/
def pyTruthy : Value → Bool
  | Value.vnone => false
  | Value.vbool b => b
  | Value.vint n => if n = 0 then false else true
  | Value.vfloat q => if q = 0 then false else true
  | Value.vstr s => if s = "" then false else true
  | Value.vlist xs => if xs.isEmpty then false else true
  | Value.vdict d => if d.isEmpty then false else true

/-- Numeric content of a value under Python's cross-type numeric comparisons,
where `True == 1` and `False == 0`. -/
def numVal : Value → Option ℚ
  | Value.vbool b => some (if b then 1 else 0)
  | Value.vint n => some (n : ℚ)
  | Value.vfloat q => some q
  | _ => none

/-- Mirrors `_is_numeric`: an `int` (not `bool`) or a `float`. -/
def isNumericV : Value → Bool
  | Value.vint _ => true
  | Value.vfloat _ => true
  | _ => false

mutual

/-- Nesting depth of a value (1 for leaves). -/
def depthV : Value → Nat
  | Value.vlist xs => 1 + depthL xs
  | Value.vdict xs => 1 + depthD xs
  | _ => 1

/-- Maximum depth of the elements of a list value. -/
def depthL : List Value → Nat
  | [] => 0
  | x :: xs => max (depthV x) (depthL xs)

/-- Maximum depth of the values of a dict value. -/
def depthD : List (String × Value) → Nat
  | [] => 0
  | p :: rest => max (depthV p.2) (depthD rest)

end

/-- Fuelled Python `==` on values.  The fuel only bounds the recursion depth:
every recursive call goes one nesting level down in both arguments, so the
`depthV a + depthV b` fuel supplied by `pyEq` is never exhausted (each level
consumes 1 fuel while both depths shrink by 1). -/
def pyEqFuel : Nat → Value → Value → Bool
  | 0, _, _ => false
  | n + 1, a, b =>
    match a, b with
    | Value.vstr s, Value.vstr t => s == t
    | Value.vstr _, _ => false
    | _, Value.vstr _ => false
    | Value.vlist xs, Value.vlist ys =>
        xs.length == ys.length && (xs.zip ys).all (fun p => pyEqFuel n p.1 p.2)
    | Value.vlist _, _ => false
    | _, Value.vlist _ => false
    | Value.vdict xs, Value.vdict ys =>
        xs.length == ys.length &&
          xs.all (fun p => ys.any (fun q => p.1 == q.1 && pyEqFuel n p.2 q.2))
    | Value.vdict _, _ => false
    | _, Value.vdict _ => false
    | Value.vnone, Value.vnone => true
    | a, b =>
        match numVal a, numVal b with
        | some x, some y => x == y
        | _, _ => false

/-- Python `==` on values: numeric cross-type equality (`1 == 1.0 == True`),
structural equality on strings/lists, key-set-and-values equality on dicts. -/
def pyEq (a b : Value) : Bool :=
  pyEqFuel (depthV a + depthV b) a b

/-- The Python exception classes the core can raise. -/
inductive PyExn where
  | keyError
  | typeError
  | attributeError
deriving DecidableEq

/-- Mirrors `_type_matches` (override_validator.py): `integer` excludes `bool`,
`float` accepts `int` but excludes `bool`, other names use `_TYPE_CHECKERS`.
A list- or dict-valued declared type is unhashable in Python, so the
`_TYPE_CHECKERS.get` lookup raises `TypeError`; any other non-string declared
type is simply not a key of the table and yields `False`. -/
def typeMatches (declaredType : Value) (value : Value) : Except PyExn Bool :=
  match declaredType with
  | Value.vstr "integer" =>
      Except.ok (match value with | Value.vint _ => true | _ => false)
  | Value.vstr "float" =>
      Except.ok (match value with
                 | Value.vint _ => true
                 | Value.vfloat _ => true
                 | _ => false)
  | Value.vstr "string" =>
      Except.ok (match value with | Value.vstr _ => true | _ => false)
  | Value.vstr "boolean" =>
      Except.ok (match value with | Value.vbool _ => true | _ => false)
  | Value.vstr "list" =>
      Except.ok (match value with | Value.vlist _ => true | _ => false)
  | Value.vstr "dict" =>
      Except.ok (match value with | Value.vdict _ => true | _ => false)
  | Value.vstr _ => Except.ok false
  | Value.vlist _ => Except.error PyExn.typeError
  | Value.vdict _ => Except.error PyExn.typeError
  | _ => Except.ok false

namespace SchemaValidator

/-- `declared_type not in _VALID_TYPES`: membership of the raw value in the
frozenset of type names.  An unhashable value (list/dict) raises `TypeError`;
a hashable non-string is simply not a member. -/
def validTypeName : Value → Except PyExn Bool
  | Value.vstr s =>
      Except.ok (s == "string" || s == "integer" || s == "boolean" ||
                 s == "float" || s == "list" || s == "dict")
  | Value.vlist _ => Except.error PyExn.typeError
  | Value.vdict _ => Except.error PyExn.typeError
  | _ => Except.ok false

/-- Mirrors `_validate_default`: `integer` rejects `bool`, `float` accepts
`int`/`float` but rejects `bool`, the rest use direct isinstance membership. -/
def defaultTypeErrors (fieldPath : String) (declaredType : String)
    (defaultValue : Value) : List String :=
  match declaredType, defaultValue with
  | "integer", Value.vint _ => []
  | "integer", _ => [fieldPath]
  | "float", Value.vint _ => []
  | "float", Value.vfloat _ => []
  | "float", _ => [fieldPath]
  | "string", Value.vstr _ => []
  | "string", _ => [fieldPath]
  | "boolean", Value.vbool _ => []
  | "boolean", _ => [fieldPath]
  | "list", Value.vlist _ => []
  | "list", _ => [fieldPath]
  | "dict", Value.vdict _ => []
  | "dict", _ => [fieldPath]
  | _, _ => []

/-- Unknown keys in a `constraints` block (one error listing them all). -/
def constraintKeyErrs (cPath : String) (c : PyDict) : List String :=
  if c.any (fun p => !(p.1 == "min" || p.1 == "max" || p.1 == "allowed_values"))
  then [cPath] else []

/-- `min` present but not numeric. -/
def constraintMinErrs (cPath : String) (c : PyDict) : List String :=
  match lookupKey c "min" with
  | none => []
  | some v => if isNumericV v then [] else [cPath ++ ".min"]

/-- `max` present but not numeric. -/
def constraintMaxErrs (cPath : String) (c : PyDict) : List String :=
  match lookupKey c "max" with
  | none => []
  | some v => if isNumericV v then [] else [cPath ++ ".max"]

/-- `min > max` when both are present and numeric (a non-numeric bound was
reported above and set to `None`, excluding it from this cross-check). -/
def constraintCrossErrs (cPath : String) (c : PyDict) : List String :=
  match lookupKey c "min", lookupKey c "max" with
  | some mv, some xv =>
      if isNumericV mv && isNumericV xv then
        match numVal mv, numVal xv with
        | some a, some b => if b < a then [cPath] else []
        | _, _ => []
      else []
  | _, _ => []

/-- `allowed_values` present but not a non-empty list. -/
def constraintAllowedErrs (cPath : String) (c : PyDict) : List String :=
  if hasKey c "allowed_values" then
    match lookupKey c "allowed_values" with
    | some (Value.vlist (_ :: _)) => []
    | _ => [cPath ++ ".allowed_values"]
  else []

/-- Mirrors `SchemaValidator._validate_constraints`: unknown keys, numeric
`min`/`max`, `min ≤ max`, and non-empty-list `allowed_values`, in source
order. -/
def constraintsSchemaErrors (fieldPath : String) (constraints : Value) :
    List String :=
  match constraints with
  | Value.vdict c =>
      constraintKeyErrs (fieldPath ++ ".constraints") c ++
      constraintMinErrs (fieldPath ++ ".constraints") c ++
      constraintMaxErrs (fieldPath ++ ".constraints") c ++
      constraintCrossErrs (fieldPath ++ ".constraints") c ++
      constraintAllowedErrs (fieldPath ++ ".constraints") c
  | _ => [fieldPath ++ ".constraints"]

/-- One `policy` list key (`editable_by_roles` / `environment_restrictions`):
must be a non-empty list, all of whose items are strings. -/
def policyKeyErrors (pPath key : String) (policy : PyDict) : List String :=
  if hasKey policy key then
    match lookupKey policy key with
    | some (Value.vlist l) =>
        if l.isEmpty then [pPath ++ "." ++ key]
        else if l.all (fun it => match it with
                                 | Value.vstr _ => true
                                 | _ => false)
        then []
        else [pPath ++ "." ++ key]
    | _ => [pPath ++ "." ++ key]
  else []

/-- Unknown keys in a `policy` block. -/
def policyKeysErrs (pPath : String) (p : PyDict) : List String :=
  if p.any (fun q =>
      !(q.1 == "editable_by_roles" || q.1 == "environment_restrictions"))
  then [pPath] else []

/-- Mirrors `SchemaValidator._validate_policy`. -/
def policySchemaErrors (fieldPath : String) (policy : Value) : List String :=
  match policy with
  | Value.vdict p =>
      policyKeysErrs (fieldPath ++ ".policy") p ++
      policyKeyErrors (fieldPath ++ ".policy") "editable_by_roles" p ++
      policyKeyErrors (fieldPath ++ ".policy") "environment_restrictions" p
  | _ => [fieldPath ++ ".policy"]

/-- Rule 3: `"type"` present (a null value counts as absent via `.get`) and a
member of the valid type set.  The pair carries the declared type name when
the rule succeeded (`type_valid`). -/
def typeRule (fieldPath : String) (fieldDef : PyDict) :
    Except PyExn (List String × Option String) :=
  match pyGet fieldDef "type" with
  | none => Except.ok ([fieldPath], none)
  | some dt => do
      let ok ← validTypeName dt
      match dt, ok with
      | Value.vstr t, true => Except.ok (([] : List String), some t)
      | _, _ => Except.ok (([fieldPath] : List String), (none : Option String))

/-- Rules 4-5: `"default"` must be present (key presence, a null value is
fine for presence), and when rule 3 succeeded the default must match the
declared type. -/
def defaultRuleErrs (fieldPath : String) (fieldDef : PyDict)
    (topt : Option String) : List String :=
  if hasKey fieldDef "default" then
    match topt, lookupKey fieldDef "default" with
    | some t, some dv => defaultTypeErrors fieldPath t dv
    | _, _ => []
  else [fieldPath]

/-- Rule 6: the optional `constraints` block (key presence). -/
def constraintsRuleErrs (fieldPath : String) (fieldDef : PyDict) : List String :=
  match lookupKey fieldDef "constraints" with
  | none => []
  | some cv => constraintsSchemaErrors fieldPath cv

/-- Rule 7: the optional `policy` block (key presence). -/
def policyRuleErrs (fieldPath : String) (fieldDef : PyDict) : List String :=
  match lookupKey fieldDef "policy" with
  | none => []
  | some pv => policySchemaErrors fieldPath pv

/-- Mirrors `SchemaValidator._validate_field` (rules 3-7 for one field). -/
def validateField (fieldPath : String) (fieldDef : PyDict) :
    Except PyExn (List String) := do
  let tv ← typeRule fieldPath fieldDef
  Except.ok (tv.1 ++ defaultRuleErrs fieldPath fieldDef tv.2 ++
             constraintsRuleErrs fieldPath fieldDef ++
             policyRuleErrs fieldPath fieldDef)

/-- One iteration of the field loop: a non-dict field definition is reported
and skipped, a dict one goes through `_validate_field`. -/
def fieldDefErrors (fieldPath : String) : Value → Except PyExn (List String)
  | Value.vdict fdef => validateField fieldPath fdef
  | _ => Except.ok [fieldPath]

/-- The inner loop of `SchemaValidator.validate` over one namespace's
fields. -/
def fieldsErrors (nsPath : String) : PyDict → Except PyExn (List String)
  | [] => Except.ok []
  | (fn, fdefV) :: rest => do
      let here ← fieldDefErrors (nsPath ++ "." ++ fn) fdefV
      let tail ← fieldsErrors nsPath rest
      Except.ok (here ++ tail)

/-- Rule 2: a non-dict namespace value is reported and its fields skipped. -/
def namespaceErrors (nsName : String) (nsValue : Value) :
    Except PyExn (List String) :=
  match nsValue with
  | Value.vdict fields => fieldsErrors ("namespaces." ++ nsName) fields
  | _ => Except.ok ["namespaces." ++ nsName]

/-- The outer loop of `SchemaValidator.validate` over all namespaces. -/
def allNamespaceErrors : PyDict → Except PyExn (List String)
  | [] => Except.ok []
  | (ns, nsV) :: rest => do
      let here ← namespaceErrors ns nsV
      let tail ← allNamespaceErrors rest
      Except.ok (here ++ tail)

/-- Mirrors `SchemaValidator.validate`.  Success (`None` in Python) is the
empty error list; raising `SchemaValidationError(errors)` is returning the
non-empty list.  The two fatal early exits return only the single
`"namespaces"` error. -/
def validate (schemaDefinition : Value) : Except PyExn (List String) :=
  match schemaDefinition with
  | Value.vdict d =>
      match lookupKey d "namespaces" with
      | none => Except.ok ["namespaces"]
      | some (Value.vdict nss) =>
          if nss.isEmpty then Except.ok ["namespaces"]
          else allNamespaceErrors nss
      | some _ => Except.ok ["namespaces"]
  | _ => Except.ok ["namespaces"]

/-- A schema accepted by `SchemaValidator.validate` (returns with no error). -/
def schemaOK (s : Value) : Prop := validate s = Except.ok []

end SchemaValidator

namespace ConfigResolver

/-- The resolver's result: a dict of namespace name to field-value dict. -/
abbrev Resolved := List (String × List (String × Value))

/-- Python dict assignment `d[k] = v`: replace the (unique) existing entry in
place, else append. -/
def setInDict : List (String × Value) → String → Value → List (String × Value)
  | [], k, v => [(k, v)]
  | (k2, v2) :: rest, k, v =>
      if k2 = k then (k, v) :: rest
      else (k2, v2) :: setInDict rest k v

/-- `base[ns][fn] = v`.  When `ns` is absent this is a no-op, but the caller
(`_apply_overrides`) only assigns namespaces present in `base`. -/
def setField : Resolved → String → String → Value → Resolved
  | [], _, _, _ => []
  | (n, flds) :: rest, ns, fn, v =>
      if n = ns then (n, setInDict flds fn v) :: rest
      else (n, flds) :: setField rest ns fn v

/-- `base[ns][fn]` as a partial read. -/
def getField (r : Resolved) (ns fn : String) : Option Value :=
  match lookupKey r ns with
  | some flds => lookupKey flds fn
  | none => none

/-- Step 1, inner comprehension: `{fname: deepcopy(fdef["default"]) ...}`.
A non-dict field definition makes the subscript raise `TypeError`; a dict
without `"default"` raises `KeyError`.  `deepcopy` is the identity here. -/
def buildFields : PyDict → Except PyExn (List (String × Value))
  | [] => Except.ok []
  | (fn, fdefV) :: rest =>
      match fdefV with
      | Value.vdict fdef =>
          match lookupKey fdef "default" with
          | some d => do
              let tail ← buildFields rest
              Except.ok ((fn, d) :: tail)
          | none => Except.error PyExn.keyError
      | _ => Except.error PyExn.typeError

/-- Step 1, outer comprehension over `schema["namespaces"]`.  A non-dict
namespace value raises (`.items()` on a non-dict). -/
def buildBase : PyDict → Except PyExn Resolved
  | [] => Except.ok []
  | (ns, fieldsV) :: rest =>
      match fieldsV with
      | Value.vdict fields => do
          let fs ← buildFields fields
          let tail ← buildBase rest
          Except.ok ((ns, fs) :: tail)
      | _ => Except.error PyExn.attributeError

/-- The inner loop of `_apply_overrides`: unknown fields are silently
skipped, known fields are assigned wholesale (values are atomic). -/
def applyFieldOverrides (schemaFields : PyDict) (nsName : String) :
    Resolved → List (String × Value) → Resolved
  | b, [] => b
  | b, (fn, v) :: rest =>
      if hasKey schemaFields fn then
        applyFieldOverrides schemaFields nsName (setField b nsName fn v) rest
      else applyFieldOverrides schemaFields nsName b rest

/-- The outer loop of `_apply_overrides`: unknown namespaces and non-dict
namespace override values are silently skipped.  The error branch models the
raise Python would produce when the schema namespace value is not a dict; it
is unreachable from `resolve`, which only applies overrides after `buildBase`
has established that every namespace value is a dict. -/
def applyNamespaces (schemaNamespaces : PyDict) :
    Resolved → List (String × Value) → Except PyExn Resolved
  | b, [] => Except.ok b
  | b, (nsName, nsOv) :: rest =>
      if hasKey schemaNamespaces nsName then
        match nsOv with
        | Value.vdict nsEntries =>
            match lookupKey schemaNamespaces nsName with
            | some (Value.vdict schemaFields) =>
                applyNamespaces schemaNamespaces
                  (applyFieldOverrides schemaFields nsName b nsEntries) rest
            | _ => Except.error PyExn.typeError
        | _ => applyNamespaces schemaNamespaces b rest
      else applyNamespaces schemaNamespaces b rest

/-- Mirrors `ConfigResolver._apply_overrides` with its `if not overrides`
early return (`None` and the empty dict both skip the layer). -/
def applyOverrides (b : Resolved) (schemaNamespaces : PyDict) :
    Option PyDict → Except PyExn Resolved
  | none => Except.ok b
  | some ov => applyNamespaces schemaNamespaces b ov

/-- `schema["namespaces"]`: raises `KeyError` when the key is absent; a
non-dict value raises on its first `.items()` call in step 1. -/
def getNamespaces (schema : PyDict) : Except PyExn PyDict :=
  match lookupKey schema "namespaces" with
  | none => Except.error PyExn.keyError
  | some (Value.vdict nss) => Except.ok nss
  | some _ => Except.error PyExn.attributeError

/-- Mirrors `ConfigResolver.resolve`: `schema["namespaces"]` (raising
`KeyError` when absent), base from defaults, then the org pass strictly
before the user pass. -/
def resolve (schema : PyDict) (orgOverrides userOverrides : Option PyDict) :
    Except PyExn Resolved := do
  let namespaces ← getNamespaces schema
  let base ← buildBase namespaces
  let afterOrg ← applyOverrides base namespaces orgOverrides
  let afterUser ← applyOverrides afterOrg namespaces userOverrides
  Except.ok afterUser

end ConfigResolver

/-- A validation error of `OverrideValidationService`: dot-separated field
path plus machine-readable code (the human-readable message is not
modelled). -/
structure ErrEntry where
  field : String
  code : String
deriving DecidableEq

/-- Mirrors the `OverrideValidationRequest` dataclass.  `overrides` is
`Option` because the service tolerates `None` via `request.overrides or {}`. -/
structure OverrideValidationRequest where
  schema : PyDict
  overrides : Option PyDict
  actingRole : String
  environment : String

/-- Mirrors the `OverrideValidationResult` dataclass. -/
structure OverrideValidationResult where
  valid : Bool
  errors : List ErrEntry
deriving DecidableEq

namespace OverrideValidationService

/-- The `comparable` chosen by `_validate_constraints`: the value itself for
declared `integer`/`float`, `len(value)` for declared `list` (Python `len`
also works on strings and dicts; it raises `TypeError` on unsized values),
and `None` for every other declared type. -/
def comparableValue (declaredType : Value) (overrideValue : Value) :
    Except PyExn (Option Value) :=
  match declaredType with
  | Value.vstr "integer" => Except.ok (some overrideValue)
  | Value.vstr "float" => Except.ok (some overrideValue)
  | Value.vstr "list" =>
      match overrideValue with
      | Value.vlist xs => Except.ok (some (Value.vint xs.length))
      | Value.vstr s => Except.ok (some (Value.vint s.length))
      | Value.vdict d => Except.ok (some (Value.vint d.length))
      | _ => Except.error PyExn.typeError
  | _ => Except.ok none

/-- Python `a < b` for the bound checks: numeric comparison (with
`True == 1`); comparing against a non-numeric bound raises `TypeError`. -/
def boundLt (a b : Value) : Except PyExn Bool :=
  match numVal a, numVal b with
  | some x, some y => Except.ok (if x < y then true else false)
  | _, _ => Except.error PyExn.typeError

/-- Python `value in container` for `allowed_values`: membership by `==` in a
list.  Schema validity guarantees a list; Python's `in` on other container
shapes (substring test on `str`, key test on `dict`) is not modelled and is
collapsed to the raise it produces for non-containers. -/
def allowedMembership (overrideValue : Value) : Value → Except PyExn Bool
  | Value.vlist avs => Except.ok (avs.any (fun av => pyEq overrideValue av))
  | _ => Except.error PyExn.typeError

/-- The `comparable < min_val` check: one `constraint_violation` when the
comparable is below a present minimum. -/
def minBoundErrors (fieldPath : String) (c : Value) :
    Option Value → Except PyExn (List ErrEntry)
  | none => Except.ok []
  | some mv => do
      let lt ← boundLt c mv
      Except.ok (if lt then [ErrEntry.mk fieldPath "constraint_violation"] else [])

/-- The `comparable > max_val` check. -/
def maxBoundErrors (fieldPath : String) (c : Value) :
    Option Value → Except PyExn (List ErrEntry)
  | none => Except.ok []
  | some xv => do
      let gt ← boundLt xv c
      Except.ok (if gt then [ErrEntry.mk fieldPath "constraint_violation"] else [])

/-- The whole `min`/`max` block of `_validate_constraints`: entered only when
some bound is present, and skipped when the `comparable` is `None` (min/max
are not meaningful for the declared type). -/
def boundErrors (fieldPath : String) (declaredType overrideValue : Value) :
    Option Value → Option Value → Except PyExn (List ErrEntry)
  | none, none => Except.ok []
  | minVal, maxVal => do
      let comp ← comparableValue declaredType overrideValue
      match comp with
      | none => Except.ok []
      | some c => do
          let minErrs ← minBoundErrors fieldPath c minVal
          let maxErrs ← maxBoundErrors fieldPath c maxVal
          Except.ok (minErrs ++ maxErrs)

/-- The `allowed_values` block of `_validate_constraints`. -/
def allowedErrors (fieldPath : String) (overrideValue : Value) :
    Option Value → Except PyExn (List ErrEntry)
  | none => Except.ok []
  | some av => do
      let isIn ← allowedMembership overrideValue av
      Except.ok (if isIn then [] else [ErrEntry.mk fieldPath "constraint_violation"])

/-- Mirrors `OverrideValidationService._validate_constraints`: `min`/`max`
bound checks on the `comparable`, then the `allowed_values` membership check,
each violation its own error.  `constraints.get(...)` collapses null values
to absence. -/
def validateConstraints (fieldPath : String) (declaredType overrideValue : Value)
    (constraints : PyDict) : Except PyExn (List ErrEntry) := do
  let boundErrs ← boundErrors fieldPath declaredType overrideValue
                    (pyGet constraints "min") (pyGet constraints "max")
  let allowedErrs ← allowedErrors fieldPath overrideValue
                      (pyGet constraints "allowed_values")
  Except.ok (boundErrs ++ allowedErrs)

/-- The rule-7 entry: `field_def.get("constraints", {})` followed by the
truthiness guard, so a falsy non-dict (or absent/null) block skips the checks
and a truthy non-dict raises on its first `.get`. -/
def constraintPhase (fieldPath : String) (fieldDef : PyDict)
    (declaredType overrideValue : Value) : Except PyExn (List ErrEntry) :=
  let constraintsV :=
    match lookupKey fieldDef "constraints" with
    | none => Value.vdict []
    | some v => v
  if pyTruthy constraintsV then
    match constraintsV with
    | Value.vdict cs => validateConstraints fieldPath declaredType overrideValue cs
    | _ => Except.error PyExn.attributeError
  else Except.ok []

/-- `field_def.get("type", "")`: the raw stored value, or `""` when the key
is absent (a stored null stays `None`, which is falsy like `""`). -/
def declaredTypeOf (fieldDef : PyDict) : Value :=
  match lookupKey fieldDef "type" with
  | none => Value.vstr ""
  | some v => v

/-- Rule 3: `field_def.get("editable") is False`. -/
def immutableErrors (fieldPath : String) (fieldDef : PyDict) : List ErrEntry :=
  match lookupKey fieldDef "editable" with
  | some (Value.vbool false) => [ErrEntry.mk fieldPath "immutable_field"]
  | _ => []

/-- `field_def.get("policy", {})` followed by the `.get` calls on it: a
non-dict (including a stored null) raises `AttributeError`. -/
def policyDict (fieldDef : PyDict) : Except PyExn PyDict :=
  match lookupKey fieldDef "policy" with
  | none => Except.ok []
  | some (Value.vdict p) => Except.ok p
  | some _ => Except.error PyExn.attributeError

/-- Rule 4: `acting_role not in editable_by_roles` (list membership by `==`;
a non-list restriction is collapsed to the raise Python's `in` produces for
non-containers — schema validity guarantees a list). -/
def roleRuleErrors (fieldPath : String) (policy : PyDict) (actingRole : String) :
    Except PyExn (List ErrEntry) :=
  match pyGet policy "editable_by_roles" with
  | none => Except.ok []
  | some (Value.vlist roles) =>
      Except.ok (if roles.any (fun r => pyEq (Value.vstr actingRole) r) then []
                 else [ErrEntry.mk fieldPath "role_forbidden"])
  | some _ => Except.error PyExn.typeError

/-- Rule 5: `environment not in environment_restrictions`. -/
def envRuleErrors (fieldPath : String) (policy : PyDict) (environment : String) :
    Except PyExn (List ErrEntry) :=
  match pyGet policy "environment_restrictions" with
  | none => Except.ok []
  | some (Value.vlist envs) =>
      Except.ok (if envs.any (fun e => pyEq (Value.vstr environment) e) then []
                 else [ErrEntry.mk fieldPath "env_forbidden"])
  | some _ => Except.error PyExn.typeError

/-- Mirrors `OverrideValidationService._validate_field_override` (rules 3-7):
`immutable_field` does not stop the sequence, role/environment policy checks,
then the type check whose failure emits `type_mismatch` and returns early,
skipping the constraint checks.  A falsy declared type (e.g. the `""`
default) skips the type check and proceeds to the constraint checks. -/
def validateFieldOverride (fieldPath : String) (fieldDef : PyDict)
    (overrideValue : Value) (actingRole environment : String) :
    Except PyExn (List ErrEntry) := do
  let policy ← policyDict fieldDef
  let roleErrs ← roleRuleErrors fieldPath policy actingRole
  let envErrs ← envRuleErrors fieldPath policy environment
  if pyTruthy (declaredTypeOf fieldDef) then do
    let m ← typeMatches (declaredTypeOf fieldDef) overrideValue
    if m then do
      let cErrs ← constraintPhase fieldPath fieldDef (declaredTypeOf fieldDef)
                    overrideValue
      Except.ok (immutableErrors fieldPath fieldDef ++ roleErrs ++ envErrs ++ cErrs)
    else
      Except.ok (immutableErrors fieldPath fieldDef ++ roleErrs ++ envErrs ++
        [ErrEntry.mk fieldPath "type_mismatch"])
  else do
    let cErrs ← constraintPhase fieldPath fieldDef (declaredTypeOf fieldDef)
                  overrideValue
    Except.ok (immutableErrors fieldPath fieldDef ++ roleErrs ++ envErrs ++ cErrs)

/-- Rule 1 (continued): `unknown_field` for override fields absent from the
schema namespace. -/
def unknownFieldErrors (schemaFields : PyDict) (nsName : String) :
    PyDict → List ErrEntry
  | [] => []
  | (fn, _) :: rest =>
      (if hasKey schemaFields fn then []
       else [ErrEntry.mk (nsName ++ "." ++ fn) "unknown_field"])
        ++ unknownFieldErrors schemaFields nsName rest

/-- Rule 2: `missing_required` for every schema field with `required is True`
absent from the overridden namespace's mapping. -/
def missingRequiredErrors (nsName : String) (nsEntries : PyDict) :
    PyDict → Except PyExn (List ErrEntry)
  | [] => Except.ok []
  | (fn, fdefV) :: rest =>
      match fdefV with
      | Value.vdict fdef => do
          let here : List ErrEntry :=
            match lookupKey fdef "required" with
            | some (Value.vbool true) =>
                if hasKey nsEntries fn then []
                else [ErrEntry.mk (nsName ++ "." ++ fn) "missing_required"]
            | _ => []
          let tail ← missingRequiredErrors nsName nsEntries rest
          Except.ok (here ++ tail)
      | _ => Except.error PyExn.attributeError

/-- Rules 3-7 for every override field that exists in the schema namespace
(unknown fields were already reported and are skipped here). -/
def perFieldErrors (schemaFields : PyDict) (nsName actingRole environment : String) :
    PyDict → Except PyExn (List ErrEntry)
  | [] => Except.ok []
  | (fn, v) :: rest =>
      match lookupKey schemaFields fn with
      | none => perFieldErrors schemaFields nsName actingRole environment rest
      | some (Value.vdict fdef) => do
          let here ← validateFieldOverride (nsName ++ "." ++ fn) fdef v
                       actingRole environment
          let tail ← perFieldErrors schemaFields nsName actingRole environment rest
          Except.ok (here ++ tail)
      | some _ => Except.error PyExn.attributeError

/-- All errors contributed by one namespace entry of the override blob.
An unknown namespace, or a non-dict namespace override value, yields exactly
one `unknown_namespace` error and skips the per-field checks.  A non-dict
value stored under `"namespaces"` raises on its first membership test (the
exotic Python `in` semantics on str/list are collapsed to that raise). -/
def namespaceOverrideErrors (schemaNamespacesV : Value)
    (actingRole environment : String) (nsName : String) (nsOv : Value) :
    Except PyExn (List ErrEntry) :=
  match schemaNamespacesV with
  | Value.vdict schemaNamespaces =>
      match lookupKey schemaNamespaces nsName with
      | none => Except.ok [ErrEntry.mk nsName "unknown_namespace"]
      | some schemaFieldsV =>
          match nsOv with
          | Value.vdict nsEntries =>
              match schemaFieldsV with
              | Value.vdict schemaFields => do
                  let unknown := unknownFieldErrors schemaFields nsName nsEntries
                  let missing ← missingRequiredErrors nsName nsEntries schemaFields
                  let per ← perFieldErrors schemaFields nsName actingRole
                              environment nsEntries
                  Except.ok (unknown ++ missing ++ per)
              | _ => Except.error PyExn.typeError
          | _ => Except.ok [ErrEntry.mk nsName "unknown_namespace"]
  | _ => Except.error PyExn.typeError

/-- The main loop of `OverrideValidationService.validate` over the override
blob's namespaces, accumulating all errors in order. -/
def allOverrideErrors (schemaNamespacesV : Value)
    (actingRole environment : String) : PyDict → Except PyExn (List ErrEntry)
  | [] => Except.ok []
  | (ns, nsOv) :: rest => do
      let here ← namespaceOverrideErrors schemaNamespacesV actingRole
                   environment ns nsOv
      let tail ← allOverrideErrors schemaNamespacesV actingRole environment rest
      Except.ok (here ++ tail)

/-- `request.schema.get("namespaces", {})`: the raw stored value, defaulting
to an empty dict when the key is absent. -/
def schemaNamespacesOf (schema : PyDict) : Value :=
  match lookupKey schema "namespaces" with
  | none => Value.vdict []
  | some v => v

/-- `request.overrides or {}`. -/
def overridesOf : Option PyDict → PyDict
  | none => []
  | some d => d

/-- Mirrors `OverrideValidationService.validate`:
`request.schema.get("namespaces", {})`, `request.overrides or {}`, the
accumulation loop, and `valid = (len(errors) == 0)`. -/
def validate (request : OverrideValidationRequest) :
    Except PyExn OverrideValidationResult := do
  let errs ← allOverrideErrors (schemaNamespacesOf request.schema)
               request.actingRole request.environment
               (overridesOf request.overrides)
  Except.ok (OverrideValidationResult.mk errs.isEmpty errs)

end OverrideValidationService

/-- Modelled from the spec (§4.2 rule 5): the constraint-check semantics in
the spec's own words — `min`/`max` compared against the value itself for
`integer`/`float` fields, against the list's length for `list` fields, and
ignored for all other types; `allowed_values` checked by membership for every
type; each violation its own `constraint_violation` error.  Used only to
compare `_validate_constraints` against the spec (claim C9). -/
def specComparable (declaredType overrideValue : Value) : Option ℚ :=
  match declaredType with
  | Value.vstr "integer" => numVal overrideValue
  | Value.vstr "float" => numVal overrideValue
  | Value.vstr "list" =>
      match overrideValue with
      | Value.vlist xs => some (xs.length : ℚ)
      | _ => none
  | _ => none

/-- Modelled from the spec (§4.2 rule 5), continued: the full error list the
spec describes for the constraint checks. -/
def constraintSpecErrors (fieldPath : String) (declaredType overrideValue : Value)
    (constraints : PyDict) : List ErrEntry :=
  let belowMin :=
    match specComparable declaredType overrideValue, pyGet constraints "min" with
    | some c, some mv =>
        match numVal mv with
        | some m => if c < m then [ErrEntry.mk fieldPath "constraint_violation"] else []
        | none => []
    | _, _ => []
  let aboveMax :=
    match specComparable declaredType overrideValue, pyGet constraints "max" with
    | some c, some xv =>
        match numVal xv with
        | some m => if m < c then [ErrEntry.mk fieldPath "constraint_violation"] else []
        | none => []
    | _, _ => []
  let notAllowed :=
    match pyGet constraints "allowed_values" with
    | some (Value.vlist avs) =>
        if avs.any (fun av => pyEq overrideValue av) then []
        else [ErrEntry.mk fieldPath "constraint_violation"]
    | _ => []
  belowMin ++ aboveMax ++ notAllowed

/-- The facts about a single field definition guaranteed by
`SchemaValidator` acceptance that the override validator and resolver rely
on. -/
structure FieldFacts (fdef : PyDict) : Prop where
  type_ok : ∃ t, pyGet fdef "type" = some (Value.vstr t) ∧
      (t = "string" ∨ t = "integer" ∨ t = "boolean" ∨ t = "float" ∨
       t = "list" ∨ t = "dict")
  default_ok : hasKey fdef "default" = true
  policy_ok : ∀ pv, lookupKey fdef "policy" = some pv →
      ∃ p, pv = Value.vdict p ∧
        (∀ w, pyGet p "editable_by_roles" = some w → ∃ l, w = Value.vlist l) ∧
        (∀ w, pyGet p "environment_restrictions" = some w → ∃ l, w = Value.vlist l)
  constraints_ok : ∀ cv, lookupKey fdef "constraints" = some cv →
      ∃ c, cv = Value.vdict c ∧
        (∀ w, pyGet c "min" = some w → isNumericV w = true) ∧
        (∀ w, pyGet c "max" = some w → isNumericV w = true) ∧
        (∀ w, pyGet c "allowed_values" = some w → ∃ l, w = Value.vlist l)

/-- The namespace-map shape guaranteed by `SchemaValidator` acceptance. -/
def GoodNss (nss : PyDict) : Prop :=
  ∀ p ∈ nss, ∃ fields, p.2 = Value.vdict fields ∧
    ∀ q ∈ fields, ∃ fdef, q.2 = Value.vdict fdef ∧ FieldFacts fdef

/-- Key shape of a resolver result: namespace names with their field names. -/
def shapeOf (r : ConfigResolver.Resolved) : List (String × List String) :=
  r.map (fun p => (p.1, p.2.map Prod.fst))

/-- Field names a namespace value declares. -/
def nsKeys : Value → List String
  | Value.vdict fields => fields.map Prod.fst
  | _ => []

/-- Key shape the schema's namespace map declares. -/
def schemaShape (nss : PyDict) : List (String × List String) :=
  nss.map (fun p => (p.1, nsKeys p.2))

/-- Whether an override layer supplies a value for `ns.fn` (some entry for
`ns` is a dict containing the field), i.e. whether the resolver's merge pass
would assign that field from this layer. -/
def supplies (ov : Option PyDict) (ns fn : String) : Bool :=
  match ov with
  | none => false
  | some d =>
      d.any (fun p =>
        p.1 == ns &&
          match p.2 with
          | Value.vdict m => m.any (fun q => q.1 == fn)
          | _ => false)

/-- The hashability side condition under which `SchemaValidator` accumulates
all errors: no field definition stores a list or dict under `"type"` (such a
value is unhashable, so the `in _VALID_TYPES` membership test raises). -/
def hashableTypes (nsValue : Value) : Prop :=
  ∀ fields, nsValue = Value.vdict fields →
    ∀ q ∈ fields, ∀ fdef, q.2 = Value.vdict fdef →
      (∀ l, pyGet fdef "type" ≠ some (Value.vlist l)) ∧
      (∀ m, pyGet fdef "type" ≠ some (Value.vdict m))

/-- A small valid schema shared by the witnesses: one namespace `payments`
with a string field `currency` (default `"USD"`) and an integer field
`max_retries` (default `3`, required). -/
def wSchema : PyDict :=
  [("namespaces", Value.vdict
    [("payments", Value.vdict
      [("currency", Value.vdict
        [("type", Value.vstr "string"), ("default", Value.vstr "USD")]),
       ("max_retries", Value.vdict
        [("type", Value.vstr "integer"), ("default", Value.vint 3),
         ("required", Value.vbool true)])])])]

/-- The namespace map of `wSchema`. -/
def wNss : PyDict :=
  [("payments", Value.vdict
    [("currency", Value.vdict
      [("type", Value.vstr "string"), ("default", Value.vstr "USD")]),
     ("max_retries", Value.vdict
      [("type", Value.vstr "integer"), ("default", Value.vint 3),
       ("required", Value.vbool true)])])]

/-! ### Generic inversion helpers -/

lemma bindOk {α β : Type} {e : Except PyExn α} {f : α → Except PyExn β} {b : β}
    (h : (e >>= f) = Except.ok b) : ∃ a, e = Except.ok a ∧ f a = Except.ok b := by
  cases e with
  | ok a => exact ⟨a, rfl, h⟩
  | error ex => simp [Bind.bind, Except.bind] at h

lemma lookupKey_mem {α : Type} : ∀ {d : List (String × α)} {k : String} {v : α},
    lookupKey d k = some v → (k, v) ∈ d
  | [], _, _, h => by cases h
  | (k2, v2) :: rest, k, v, h => by
      by_cases hk : k2 = k
      · subst hk
        simp [lookupKey] at h
        rw [← h]
        exact List.mem_cons_self _ _
      · simp only [lookupKey, if_neg hk] at h
        exact List.mem_cons_of_mem _ (lookupKey_mem h)

lemma lookupKey_none_iff {α : Type} : ∀ {d : List (String × α)} {k : String},
    lookupKey d k = none ↔ k ∉ d.map Prod.fst
  | [], k => by simp [lookupKey]
  | (k2, v2) :: rest, k => by
      by_cases hk : k2 = k
      · subst hk
        simp [lookupKey]
      · simp only [lookupKey, if_neg hk, List.map_cons, List.mem_cons]
        rw [lookupKey_none_iff]
        constructor
        · rintro h (h1 | h2)
          · exact hk h1.symm
          · exact h h2
        · intro h
          exact fun hm => h (Or.inr hm)

lemma hasKey_iff_mem {α : Type} {d : List (String × α)} {k : String} :
    hasKey d k = true ↔ k ∈ d.map Prod.fst := by
  unfold hasKey
  cases hl : lookupKey d k with
  | none => exact iff_of_false (by simp) ((lookupKey_none_iff).mp hl)
  | some v =>
      exact iff_of_true (by simp)
        (List.mem_map.mpr ⟨(k, v), lookupKey_mem hl, rfl⟩)

lemma pyGet_lookup {d : PyDict} {k : String} {v : Value}
    (h : pyGet d k = some v) : lookupKey d k = some v := by
  unfold pyGet at h
  cases hl : lookupKey d k with
  | none => rw [hl] at h; cases h
  | some w => cases w <;> rw [hl] at h <;> simp_all

/-! ### Structure extracted from `SchemaValidator` acceptance -/

lemma validate_ok_parts {d : PyDict}
    (h : SchemaValidator.validate (Value.vdict d) = Except.ok []) :
    ∃ nss, lookupKey d "namespaces" = some (Value.vdict nss) ∧
      nss.isEmpty = false ∧
      SchemaValidator.allNamespaceErrors nss = Except.ok [] := by
  rw [show SchemaValidator.validate (Value.vdict d) =
      (match lookupKey d "namespaces" with
       | none => Except.ok ["namespaces"]
       | some (Value.vdict nss) =>
           if nss.isEmpty then Except.ok ["namespaces"]
           else SchemaValidator.allNamespaceErrors nss
       | some _ => Except.ok ["namespaces"]) from rfl] at h
  cases hn : lookupKey d "namespaces" with
  | none => rw [hn] at h; simp at h
  | some v =>
      rw [hn] at h
      cases v <;> simp at h
      case vdict nss =>
        cases he : nss.isEmpty with
        | true => rw [if_pos he] at h; simp at h
        | false =>
            rw [if_neg (by simp [he])] at h
            exact ⟨nss, rfl, he, h⟩

lemma allNamespaceErrors_nil : ∀ {nss : PyDict},
    SchemaValidator.allNamespaceErrors nss = Except.ok [] →
    ∀ p ∈ nss, SchemaValidator.namespaceErrors p.1 p.2 = Except.ok []
  | [], _, p, hp => by cases hp
  | (ns, nsV) :: rest, h, p, hp => by
      unfold SchemaValidator.allNamespaceErrors at h
      obtain ⟨here, h1, h2⟩ := bindOk h
      obtain ⟨tail, h3, h4⟩ := bindOk h2
      simp only [Except.ok.injEq] at h4
      obtain ⟨hh, ht⟩ := List.append_eq_nil.mp h4
      subst hh; subst ht
      rcases List.mem_cons.mp hp with hp1 | hp2
      · subst hp1; exact h1
      · exact allNamespaceErrors_nil h3 p hp2

lemma namespaceErrors_nil {ns : String} {nsV : Value}
    (h : SchemaValidator.namespaceErrors ns nsV = Except.ok []) :
    ∃ fields, nsV = Value.vdict fields ∧
      SchemaValidator.fieldsErrors ("namespaces." ++ ns) fields = Except.ok [] := by
  unfold SchemaValidator.namespaceErrors at h
  cases nsV <;> simp at h
  case vdict fields => exact ⟨fields, rfl, h⟩

lemma fieldsErrors_nil {nsPath : String} : ∀ {fields : PyDict},
    SchemaValidator.fieldsErrors nsPath fields = Except.ok [] →
    ∀ q ∈ fields, ∃ fdef, q.2 = Value.vdict fdef ∧
      SchemaValidator.validateField (nsPath ++ "." ++ q.1) fdef = Except.ok []
  | [], _, q, hq => by cases hq
  | (fn, fdefV) :: rest, h, q, hq => by
      unfold SchemaValidator.fieldsErrors at h
      obtain ⟨here, h1, h2⟩ := bindOk h
      obtain ⟨tail, h3, h4⟩ := bindOk h2
      simp only [Except.ok.injEq] at h4
      obtain ⟨hh, ht⟩ := List.append_eq_nil.mp h4
      subst hh; subst ht
      rcases List.mem_cons.mp hq with hq1 | hq2
      · subst hq1
        cases fdefV with
        | vdict fdef => exact ⟨fdef, rfl, h1⟩
        | vnone => simp [SchemaValidator.fieldDefErrors] at h1
        | vbool b => simp [SchemaValidator.fieldDefErrors] at h1
        | vint n => simp [SchemaValidator.fieldDefErrors] at h1
        | vfloat q0 => simp [SchemaValidator.fieldDefErrors] at h1
        | vstr s => simp [SchemaValidator.fieldDefErrors] at h1
        | vlist l => simp [SchemaValidator.fieldDefErrors] at h1
      · exact fieldsErrors_nil h3 q hq2

lemma typeRule_nil {fp : String} {fdef : PyDict} {topt : Option String}
    (h : SchemaValidator.typeRule fp fdef = Except.ok ([], topt)) :
    ∃ t, pyGet fdef "type" = some (Value.vstr t) ∧ topt = some t ∧
      (t = "string" ∨ t = "integer" ∨ t = "boolean" ∨ t = "float" ∨
       t = "list" ∨ t = "dict") := by
  unfold SchemaValidator.typeRule at h
  cases hg : pyGet fdef "type" with
  | none => rw [hg] at h; simp at h
  | some dt =>
      rw [hg] at h
      obtain ⟨ok, hv, h2⟩ := bindOk h
      cases dt with
      | vstr t =>
          cases ok with
          | false => simp at h2
          | true =>
              refine ⟨t, rfl, ?_, ?_⟩
              · simpa using h2.symm
              · unfold SchemaValidator.validTypeName at hv
                simp at hv
                tauto
      | vnone => cases ok <;> simp at h2
      | vbool b => cases ok <;> simp at h2
      | vint n => cases ok <;> simp at h2
      | vfloat q => cases ok <;> simp at h2
      | vlist l => cases ok <;> simp at h2
      | vdict m => cases ok <;> simp at h2

lemma policyKeyErrors_nil {pPath key : String} {p : PyDict}
    (h : SchemaValidator.policyKeyErrors pPath key p = []) :
    ∀ w, pyGet p key = some w → ∃ l, w = Value.vlist l := by
  intro w hw
  have hl := pyGet_lookup hw
  cases w with
  | vlist l => exact ⟨l, rfl⟩
  | vnone => simp [pyGet, hl] at hw
  | vbool b =>
      unfold SchemaValidator.policyKeyErrors at h; simp [hasKey, hl] at h
  | vint n =>
      unfold SchemaValidator.policyKeyErrors at h; simp [hasKey, hl] at h
  | vfloat q =>
      unfold SchemaValidator.policyKeyErrors at h; simp [hasKey, hl] at h
  | vstr s =>
      unfold SchemaValidator.policyKeyErrors at h; simp [hasKey, hl] at h
  | vdict m =>
      unfold SchemaValidator.policyKeyErrors at h; simp [hasKey, hl] at h

lemma constraintMinErrs_nil {cPath : String} {c : PyDict}
    (h : SchemaValidator.constraintMinErrs cPath c = []) :
    ∀ w, pyGet c "min" = some w → isNumericV w = true := by
  intro w hw
  have hl := pyGet_lookup hw
  unfold SchemaValidator.constraintMinErrs at h
  rw [hl] at h
  by_cases hn : isNumericV w = true
  · exact hn
  · simp [hn] at h

lemma constraintMaxErrs_nil {cPath : String} {c : PyDict}
    (h : SchemaValidator.constraintMaxErrs cPath c = []) :
    ∀ w, pyGet c "max" = some w → isNumericV w = true := by
  intro w hw
  have hl := pyGet_lookup hw
  unfold SchemaValidator.constraintMaxErrs at h
  rw [hl] at h
  by_cases hn : isNumericV w = true
  · exact hn
  · simp [hn] at h

lemma constraintAllowedErrs_nil {cPath : String} {c : PyDict}
    (h : SchemaValidator.constraintAllowedErrs cPath c = []) :
    ∀ w, pyGet c "allowed_values" = some w → ∃ l, w = Value.vlist l := by
  intro w hw
  have hl := pyGet_lookup hw
  cases w with
  | vlist l => exact ⟨l, rfl⟩
  | vnone => simp [pyGet, hl] at hw
  | vbool b =>
      unfold SchemaValidator.constraintAllowedErrs at h; simp [hasKey, hl] at h
  | vint n =>
      unfold SchemaValidator.constraintAllowedErrs at h; simp [hasKey, hl] at h
  | vfloat q =>
      unfold SchemaValidator.constraintAllowedErrs at h; simp [hasKey, hl] at h
  | vstr s =>
      unfold SchemaValidator.constraintAllowedErrs at h; simp [hasKey, hl] at h
  | vdict m =>
      unfold SchemaValidator.constraintAllowedErrs at h; simp [hasKey, hl] at h

lemma constraintsSchemaErrors_nil {fp : String} {cv : Value}
    (h : SchemaValidator.constraintsSchemaErrors fp cv = []) :
    ∃ c, cv = Value.vdict c ∧
      (∀ w, pyGet c "min" = some w → isNumericV w = true) ∧
      (∀ w, pyGet c "max" = some w → isNumericV w = true) ∧
      (∀ w, pyGet c "allowed_values" = some w → ∃ l, w = Value.vlist l) := by
  cases cv with
  | vdict c =>
      have h2 : SchemaValidator.constraintKeyErrs (fp ++ ".constraints") c ++
          SchemaValidator.constraintMinErrs (fp ++ ".constraints") c ++
          SchemaValidator.constraintMaxErrs (fp ++ ".constraints") c ++
          SchemaValidator.constraintCrossErrs (fp ++ ".constraints") c ++
          SchemaValidator.constraintAllowedErrs (fp ++ ".constraints") c = [] := h
      simp only [List.append_eq_nil] at h2
      obtain ⟨⟨⟨⟨-, hmin⟩, hmax⟩, -⟩, hallow⟩ := h2
      exact ⟨c, rfl, constraintMinErrs_nil hmin, constraintMaxErrs_nil hmax,
        constraintAllowedErrs_nil hallow⟩
  | vnone => simp [SchemaValidator.constraintsSchemaErrors] at h
  | vbool b => simp [SchemaValidator.constraintsSchemaErrors] at h
  | vint n => simp [SchemaValidator.constraintsSchemaErrors] at h
  | vfloat q => simp [SchemaValidator.constraintsSchemaErrors] at h
  | vstr s => simp [SchemaValidator.constraintsSchemaErrors] at h
  | vlist l => simp [SchemaValidator.constraintsSchemaErrors] at h

lemma policySchemaErrors_nil {fp : String} {pv : Value}
    (h : SchemaValidator.policySchemaErrors fp pv = []) :
    ∃ p, pv = Value.vdict p ∧
      (∀ w, pyGet p "editable_by_roles" = some w → ∃ l, w = Value.vlist l) ∧
      (∀ w, pyGet p "environment_restrictions" = some w → ∃ l, w = Value.vlist l) := by
  cases pv with
  | vdict p =>
      have h2 : SchemaValidator.policyKeysErrs (fp ++ ".policy") p ++
          SchemaValidator.policyKeyErrors (fp ++ ".policy") "editable_by_roles" p ++
          SchemaValidator.policyKeyErrors (fp ++ ".policy") "environment_restrictions" p
            = [] := h
      simp only [List.append_eq_nil] at h2
      obtain ⟨⟨-, hrole⟩, henv⟩ := h2
      exact ⟨p, rfl, policyKeyErrors_nil hrole, policyKeyErrors_nil henv⟩
  | vnone => simp [SchemaValidator.policySchemaErrors] at h
  | vbool b => simp [SchemaValidator.policySchemaErrors] at h
  | vint n => simp [SchemaValidator.policySchemaErrors] at h
  | vfloat q => simp [SchemaValidator.policySchemaErrors] at h
  | vstr s => simp [SchemaValidator.policySchemaErrors] at h
  | vlist l => simp [SchemaValidator.policySchemaErrors] at h

lemma validateField_facts {fp : String} {fdef : PyDict}
    (h : SchemaValidator.validateField fp fdef = Except.ok []) :
    FieldFacts fdef := by
  unfold SchemaValidator.validateField at h
  obtain ⟨tv, h1, h2⟩ := bindOk h
  obtain ⟨errs, topt⟩ := tv
  have h3 : errs ++ SchemaValidator.defaultRuleErrs fp fdef topt ++
      SchemaValidator.constraintsRuleErrs fp fdef ++
      SchemaValidator.policyRuleErrs fp fdef = [] := by
    simpa using h2
  simp only [List.append_eq_nil] at h3
  obtain ⟨⟨⟨ht, hd⟩, hc⟩, hp⟩ := h3
  subst ht
  obtain ⟨t, hty, htopt, hvalid⟩ := typeRule_nil h1
  constructor
  · exact ⟨t, hty, hvalid⟩
  · unfold SchemaValidator.defaultRuleErrs at hd
    by_cases hk : hasKey fdef "default" = true
    · exact hk
    · simp [hk] at hd
  · intro pv hpv
    unfold SchemaValidator.policyRuleErrs at hp
    rw [hpv] at hp
    exact policySchemaErrors_nil hp
  · intro cv hcv
    unfold SchemaValidator.constraintsRuleErrs at hc
    rw [hcv] at hc
    exact constraintsSchemaErrors_nil hc

lemma schemaOK_goodNss {d : PyDict} {nss : PyDict}
    (hOK : SchemaValidator.validate (Value.vdict d) = Except.ok [])
    (hn : lookupKey d "namespaces" = some (Value.vdict nss)) :
    GoodNss nss := by
  obtain ⟨nss2, hn2, hne, hall⟩ := validate_ok_parts hOK
  rw [hn] at hn2
  have hnss : nss2 = nss := by
    simpa using hn2.symm
  subst hnss
  intro p hp
  have h1 := allNamespaceErrors_nil hall p hp
  obtain ⟨fields, hf, hfe⟩ := namespaceErrors_nil h1
  refine ⟨fields, hf, ?_⟩
  intro q hq
  obtain ⟨fdef, hfd, hvf⟩ := fieldsErrors_nil hfe q hq
  exact ⟨fdef, hfd, validateField_facts hvf⟩

/-! ### Resolver dict-update lemmas -/

lemma lookupKey_setInDict_same : ∀ (flds : List (String × Value)) (fn : String) (v : Value),
    lookupKey (ConfigResolver.setInDict flds fn v) fn = some v
  | [], fn, v => by simp [ConfigResolver.setInDict, lookupKey]
  | (k2, v2) :: rest, fn, v => by
      by_cases hk : k2 = fn
      · subst hk
        simp [ConfigResolver.setInDict, lookupKey]
      · simp only [ConfigResolver.setInDict, if_neg hk, lookupKey]
        exact lookupKey_setInDict_same rest fn v

lemma lookupKey_setInDict_other : ∀ (flds : List (String × Value)) (fn fn2 : String)
    (v : Value), fn2 ≠ fn →
    lookupKey (ConfigResolver.setInDict flds fn v) fn2 = lookupKey flds fn2
  | [], fn, fn2, v, hne => by
      simp only [ConfigResolver.setInDict, lookupKey,
        if_neg (fun h => hne (Eq.symm h))]
  | (k2, v2) :: rest, fn, fn2, v, hne => by
      by_cases hk : k2 = fn
      · subst hk
        simp only [ConfigResolver.setInDict, if_pos rfl, lookupKey]
        rw [if_neg (fun h => hne h.symm), if_neg (fun h => hne h.symm)]
      · simp only [ConfigResolver.setInDict, if_neg hk, lookupKey]
        by_cases h2 : k2 = fn2
        · rw [if_pos h2, if_pos h2]
        · rw [if_neg h2, if_neg h2]
          exact lookupKey_setInDict_other rest fn fn2 v hne

lemma setInDict_keys : ∀ {flds : List (String × Value)} {fn : String} (v : Value),
    hasKey flds fn = true →
    (ConfigResolver.setInDict flds fn v).map Prod.fst = flds.map Prod.fst
  | [], fn, v, hk => by simp [hasKey, lookupKey] at hk
  | (k2, v2) :: rest, fn, v, hk => by
      by_cases h2 : k2 = fn
      · subst h2
        simp [ConfigResolver.setInDict]
      · simp only [ConfigResolver.setInDict, if_neg h2, List.map_cons, List.cons.injEq,
          true_and]
        refine setInDict_keys v ?_
        unfold hasKey at hk ⊢
        rwa [lookupKey, if_neg h2] at hk

lemma setField_keys : ∀ (b : ConfigResolver.Resolved) (ns fn : String) (v : Value),
    (ConfigResolver.setField b ns fn v).map Prod.fst = b.map Prod.fst
  | [], _, _, _ => rfl
  | (n, flds) :: rest, ns, fn, v => by
      by_cases hn : n = ns
      · subst hn; simp [ConfigResolver.setField]
      · simp only [ConfigResolver.setField, if_neg hn, List.map_cons, List.cons.injEq,
          true_and]
        exact setField_keys rest ns fn v

lemma getField_setField_same : ∀ {b : ConfigResolver.Resolved} {ns fn : String}
    {v : Value}, hasKey b ns = true →
    ConfigResolver.getField (ConfigResolver.setField b ns fn v) ns fn = some v
  | [], ns, fn, v, hb => by simp [hasKey, lookupKey] at hb
  | (n, flds) :: rest, ns, fn, v, hb => by
      by_cases hn : n = ns
      · subst hn
        simp only [ConfigResolver.setField, if_pos rfl, ConfigResolver.getField,
          lookupKey, if_pos rfl]
        exact lookupKey_setInDict_same flds fn v
      · simp only [ConfigResolver.setField, if_neg hn, ConfigResolver.getField,
          lookupKey, if_neg hn]
        have hb2 : hasKey rest ns = true := by
          unfold hasKey at hb ⊢
          rwa [lookupKey, if_neg hn] at hb
        have := @getField_setField_same rest ns fn v hb2
        unfold ConfigResolver.getField at this
        exact this

lemma getField_setField_other : ∀ {b : ConfigResolver.Resolved} {ns fn ns2 fn2 : String}
    {v : Value}, (ns2 ≠ ns ∨ fn2 ≠ fn) →
    ConfigResolver.getField (ConfigResolver.setField b ns fn v) ns2 fn2 =
      ConfigResolver.getField b ns2 fn2
  | [], _, _, _, _, _, _ => rfl
  | (n, flds) :: rest, ns, fn, ns2, fn2, v, hne => by
      by_cases hn : n = ns
      · subst hn
        simp only [ConfigResolver.setField, if_pos rfl, ConfigResolver.getField, lookupKey]
        by_cases h2 : n = ns2
        · rw [if_pos h2, if_pos h2]
          rcases hne with hne | hne
          · exact absurd (h2.symm.trans rfl) (by rw [h2] at hne ⊢; exact fun hh => hne rfl)
          · exact lookupKey_setInDict_other flds fn fn2 v hne
        · rw [if_neg h2, if_neg h2]
      · simp only [ConfigResolver.setField, if_neg hn, ConfigResolver.getField, lookupKey]
        by_cases h2 : n = ns2
        · rw [if_pos h2, if_pos h2]
        · rw [if_neg h2, if_neg h2]
          have := @getField_setField_other rest ns fn ns2 fn2 v hne
          unfold ConfigResolver.getField at this
          exact this

/-! ### Base construction from schema defaults -/

lemma buildFields_ok : ∀ {fields : PyDict},
    (∀ q ∈ fields, ∃ fdef, q.2 = Value.vdict fdef ∧ hasKey fdef "default" = true) →
    ∃ fs, ConfigResolver.buildFields fields = Except.ok fs ∧
      fs.map Prod.fst = fields.map Prod.fst ∧
      (∀ fn fdef dv, lookupKey fields fn = some (Value.vdict fdef) →
        lookupKey fdef "default" = some dv → lookupKey fs fn = some dv)
  | [], _ => ⟨[], rfl, rfl, by intro fn fdef dv h; cases h⟩
  | (fn0, fdefV) :: rest, hf => by
      obtain ⟨fdef0, hv, hd⟩ := hf (fn0, fdefV) (List.mem_cons_self _ _)
      obtain ⟨dv0, hdv0⟩ := Option.isSome_iff_exists.mp hd
      obtain ⟨fs, hfs, hkeys, hvals⟩ :=
        buildFields_ok (fun q hq => hf q (List.mem_cons_of_mem _ hq))
      refine ⟨(fn0, dv0) :: fs, ?_, ?_, ?_⟩
      · simp only at hv
        subst hv
        simp only [ConfigResolver.buildFields, hdv0, hfs]
        rfl
      · simpa using hkeys
      · intro fn fdef dv h1 h2
        simp only at hv
        subst hv
        by_cases hfn : fn0 = fn
        · subst hfn
          rw [lookupKey, if_pos rfl] at h1
          rw [lookupKey, if_pos rfl]
          obtain hfd : fdef0 = fdef := by simpa using h1
          subst hfd
          rw [hdv0] at h2
          simpa using h2
        · rw [lookupKey, if_neg hfn] at h1
          rw [lookupKey, if_neg hfn]
          exact hvals fn fdef dv h1 h2

lemma buildBase_ok : ∀ {nss : PyDict},
    (∀ p ∈ nss, ∃ fields, p.2 = Value.vdict fields ∧
      ∀ q ∈ fields, ∃ fdef, q.2 = Value.vdict fdef ∧ hasKey fdef "default" = true) →
    ∃ b, ConfigResolver.buildBase nss = Except.ok b ∧
      shapeOf b = schemaShape nss ∧
      (∀ ns fields fn fdef dv,
        lookupKey nss ns = some (Value.vdict fields) →
        lookupKey fields fn = some (Value.vdict fdef) →
        lookupKey fdef "default" = some dv →
        ConfigResolver.getField b ns fn = some dv)
  | [], _ => ⟨[], rfl, rfl, by intro ns fields fn fdef dv h; cases h⟩
  | (ns0, fieldsV) :: rest, hg => by
      obtain ⟨fields0, hv, hfall⟩ := hg (ns0, fieldsV) (List.mem_cons_self _ _)
      simp only at hv
      subst hv
      obtain ⟨fs, hfs, hkeys, hvals⟩ := buildFields_ok hfall
      obtain ⟨b, hb, hshape, hget⟩ :=
        buildBase_ok (fun p hp => hg p (List.mem_cons_of_mem _ hp))
      refine ⟨(ns0, fs) :: b, ?_, ?_, ?_⟩
      · simp only [ConfigResolver.buildBase, hfs, hb]
        rfl
      · simp only [shapeOf, schemaShape, List.map_cons] at hshape ⊢
        rw [hkeys, hshape]
        simp [nsKeys]
      · intro ns fields fn fdef dv h1 h2 h3
        by_cases hns : ns0 = ns
        · subst hns
          rw [lookupKey, if_pos rfl] at h1
          obtain hff : fields0 = fields := by simpa using h1
          subst hff
          unfold ConfigResolver.getField
          rw [lookupKey, if_pos rfl]
          exact hvals fn fdef dv h2 h3
        · rw [lookupKey, if_neg hns] at h1
          have := hget ns fields fn fdef dv h1 h2 h3
          unfold ConfigResolver.getField at this ⊢
          rwa [lookupKey, if_neg hns]

/-! ### Shape correspondence between a resolved dict and the schema -/

lemma lookup_of_shape : ∀ {b : ConfigResolver.Resolved} {nss : PyDict},
    shapeOf b = schemaShape nss →
    ∀ (ns : String),
      (∀ fields, lookupKey nss ns = some (Value.vdict fields) →
        ∃ fb, lookupKey b ns = some fb ∧ fb.map Prod.fst = fields.map Prod.fst) ∧
      (lookupKey nss ns = none → lookupKey b ns = none)
  | [], [], _, ns => ⟨fun fields h => (nomatch h), fun _ => rfl⟩
  | [], q :: nss, h, ns => by simp [shapeOf, schemaShape] at h
  | p :: b, [], h, ns => by simp [shapeOf, schemaShape] at h
  | (n1, f1) :: b, (n2, v2) :: nss, h, ns => by
      simp only [shapeOf, schemaShape, List.map_cons, List.cons_eq_cons] at h
      obtain ⟨hhead, htail⟩ := h
      have hn12 : n1 = n2 := (Prod.ext_iff.mp hhead).1
      have hfk : f1.map Prod.fst = nsKeys v2 := (Prod.ext_iff.mp hhead).2
      constructor
      · intro fields hlk
        by_cases hns : n2 = ns
        · subst hns
          rw [lookupKey, if_pos rfl] at hlk
          obtain hv2 : v2 = Value.vdict fields := by simpa using hlk
          subst hv2
          refine ⟨f1, ?_, by simpa [nsKeys] using hfk⟩
          rw [lookupKey, if_pos hn12]
        · rw [lookupKey, if_neg hns] at hlk
          obtain ⟨fb, hfb1, hfb2⟩ := (lookup_of_shape htail ns).1 fields hlk
          refine ⟨fb, ?_, hfb2⟩
          rw [lookupKey, if_neg (hn12 ▸ hns)]
          exact hfb1
      · intro hlk
        by_cases hns : n2 = ns
        · subst hns
          rw [lookupKey, if_pos rfl] at hlk
          cases hlk
        · rw [lookupKey, if_neg hns] at hlk
          rw [lookupKey, if_neg (hn12 ▸ hns)]
          exact (lookup_of_shape htail ns).2 hlk

/-! ### Override application lemmas -/

lemma hasKey_some {α : Type} {d : List (String × α)} {k : String}
    (h : hasKey d k = true) : ∃ v, lookupKey d k = some v := by
  unfold hasKey at h
  cases hl : lookupKey d k with
  | none => rw [hl] at h; cases h
  | some v => exact ⟨v, rfl⟩

lemma setField_shape : ∀ {b : ConfigResolver.Resolved} {ns fn : String} {v : Value},
    (∀ flds, lookupKey b ns = some flds → hasKey flds fn = true) →
    shapeOf (ConfigResolver.setField b ns fn v) = shapeOf b
  | [], _, _, _, _ => rfl
  | (n, flds) :: rest, ns, fn, v, h => by
      by_cases hn : n = ns
      · subst hn
        have hk := h flds (by rw [lookupKey, if_pos rfl])
        simp [ConfigResolver.setField, shapeOf, setInDict_keys v hk]
      · simp only [ConfigResolver.setField, if_neg hn, shapeOf, List.map_cons]
        have hrec := @setField_shape rest ns fn v
          (fun flds2 h2 => h flds2 (by rw [lookupKey, if_neg hn]; exact h2))
        unfold shapeOf at hrec
        rw [hrec]

lemma applyFieldOverrides_getField_otherNs {fields : PyDict} {nsName ns fn : String}
    (hne : ns ≠ nsName) :
    ∀ (m : List (String × Value)) (b : ConfigResolver.Resolved),
    ConfigResolver.getField (ConfigResolver.applyFieldOverrides fields nsName b m) ns fn =
      ConfigResolver.getField b ns fn
  | [], b => rfl
  | (fn2, v2) :: rest, b => by
      cases hk : hasKey fields fn2 with
      | false =>
          simp only [ConfigResolver.applyFieldOverrides, hk, Bool.false_eq_true,
            if_false]
          exact applyFieldOverrides_getField_otherNs hne rest b
      | true =>
          simp only [ConfigResolver.applyFieldOverrides, hk, if_true]
          rw [applyFieldOverrides_getField_otherNs hne rest _]
          exact getField_setField_other (Or.inl hne)

lemma applyFieldOverrides_getField_untouched {fields : PyDict} {nsName fn : String} :
    ∀ (m : List (String × Value)) (b : ConfigResolver.Resolved),
    fn ∉ m.map Prod.fst →
    ConfigResolver.getField (ConfigResolver.applyFieldOverrides fields nsName b m) nsName fn =
      ConfigResolver.getField b nsName fn
  | [], b, _ => rfl
  | (fn2, v2) :: rest, b, hnot => by
      have hne2 : fn ≠ fn2 := by
        intro hcontra
        exact hnot (by simp [hcontra])
      have hnrest : fn ∉ rest.map Prod.fst := by
        intro hcontra
        exact hnot (by simp [hcontra])
      cases hk : hasKey fields fn2 with
      | false =>
          simp only [ConfigResolver.applyFieldOverrides, hk, Bool.false_eq_true,
            if_false]
          exact applyFieldOverrides_getField_untouched rest b hnrest
      | true =>
          simp only [ConfigResolver.applyFieldOverrides, hk, if_true]
          rw [applyFieldOverrides_getField_untouched rest _ hnrest]
          exact getField_setField_other (Or.inr hne2)

lemma applyFieldOverrides_getField_target {fields : PyDict} {nsName fn : String}
    {vNew : Value} (hsf : hasKey fields fn = true) :
    ∀ (m : List (String × Value)) (b : ConfigResolver.Resolved),
    (m.map Prod.fst).Nodup → lookupKey m fn = some vNew → hasKey b nsName = true →
    ConfigResolver.getField (ConfigResolver.applyFieldOverrides fields nsName b m) nsName fn =
      some vNew
  | [], _, _, hm, _ => by cases hm
  | (fn2, v2) :: rest, b, hnd, hm, hb => by
      have hnd1 : (fn2 :: rest.map Prod.fst).Nodup := hnd
      obtain ⟨hnotin, hnd2⟩ := List.nodup_cons.mp hnd1
      by_cases hf2 : fn2 = fn
      · subst hf2
        rw [lookupKey, if_pos rfl] at hm
        obtain hv : v2 = vNew := by simpa using hm
        subst hv
        simp only [ConfigResolver.applyFieldOverrides, hsf, if_true]
        rw [applyFieldOverrides_getField_untouched rest _ hnotin]
        exact getField_setField_same hb
      · rw [lookupKey, if_neg hf2] at hm
        cases hk : hasKey fields fn2 with
        | false =>
            simp only [ConfigResolver.applyFieldOverrides, hk, Bool.false_eq_true,
              if_false]
            exact applyFieldOverrides_getField_target hsf rest b hnd2 hm hb
        | true =>
            simp only [ConfigResolver.applyFieldOverrides, hk, if_true]
            refine applyFieldOverrides_getField_target hsf rest _ hnd2 hm ?_
            unfold hasKey at hb ⊢
            cases hbl : lookupKey b nsName with
            | none => rw [hbl] at hb; cases hb
            | some flds =>
                have : (lookupKey (ConfigResolver.setField b nsName fn2 v2) nsName).isSome
                    = true := by
                  have hkeys := setField_keys b nsName fn2 v2
                  have hmem : nsName ∈ b.map Prod.fst :=
                    List.mem_map.mpr ⟨(nsName, flds), lookupKey_mem hbl, rfl⟩
                  have hmem2 : nsName ∈
                      (ConfigResolver.setField b nsName fn2 v2).map Prod.fst := by
                    rw [hkeys]; exact hmem
                  have := hasKey_iff_mem.mpr hmem2
                  unfold hasKey at this
                  exact this
                exact this

lemma applyNamespaces_cons_known {nss : PyDict} {nsName : String}
    {fields : PyDict} {m : List (String × Value)} {rest : List (String × Value)}
    {b : ConfigResolver.Resolved}
    (hfv : lookupKey nss nsName = some (Value.vdict fields)) :
    ConfigResolver.applyNamespaces nss b ((nsName, Value.vdict m) :: rest) =
      ConfigResolver.applyNamespaces nss
        (ConfigResolver.applyFieldOverrides fields nsName b m) rest := by
  have hk : hasKey nss nsName = true := by unfold hasKey; rw [hfv]; rfl
  simp [ConfigResolver.applyNamespaces, hk, hfv]

lemma applyNamespaces_cons_unknown {nss : PyDict} {nsName : String} {ov : Value}
    {rest : List (String × Value)} {b : ConfigResolver.Resolved}
    (hk : hasKey nss nsName = false) :
    ConfigResolver.applyNamespaces nss b ((nsName, ov) :: rest) =
      ConfigResolver.applyNamespaces nss b rest := by
  simp [ConfigResolver.applyNamespaces, hk]

lemma applyNamespaces_cons_nondict {nss : PyDict} {nsName : String} {ov : Value}
    {rest : List (String × Value)} {b : ConfigResolver.Resolved}
    (hnd : ∀ m, ov ≠ Value.vdict m) :
    ConfigResolver.applyNamespaces nss b ((nsName, ov) :: rest) =
      ConfigResolver.applyNamespaces nss b rest := by
  cases hk : hasKey nss nsName with
  | false => simp [ConfigResolver.applyNamespaces, hk]
  | true =>
      cases ov with
      | vdict m => exact absurd rfl (hnd m)
      | vnone => simp [ConfigResolver.applyNamespaces, hk]
      | vbool b2 => simp [ConfigResolver.applyNamespaces, hk]
      | vint n => simp [ConfigResolver.applyNamespaces, hk]
      | vfloat q => simp [ConfigResolver.applyNamespaces, hk]
      | vstr s => simp [ConfigResolver.applyNamespaces, hk]
      | vlist l => simp [ConfigResolver.applyNamespaces, hk]

lemma applyFieldOverrides_shape {nss fields : PyDict} {nsName : String}
    (hfv : lookupKey nss nsName = some (Value.vdict fields)) :
    ∀ (m : List (String × Value)) (b : ConfigResolver.Resolved),
    shapeOf b = schemaShape nss →
    shapeOf (ConfigResolver.applyFieldOverrides fields nsName b m) = schemaShape nss
  | [], b, hs => hs
  | (fn, v) :: rest, b, hs => by
      cases hk : hasKey fields fn with
      | false =>
          simp only [ConfigResolver.applyFieldOverrides, hk, Bool.false_eq_true,
            if_false]
          exact applyFieldOverrides_shape hfv rest b hs
      | true =>
          simp only [ConfigResolver.applyFieldOverrides, hk, if_true]
          refine applyFieldOverrides_shape hfv rest _ ?_
          rw [setField_shape, hs]
          intro flds hbl
          obtain ⟨fb, hfb1, hfb2⟩ := (lookup_of_shape hs nsName).1 fields hfv
          rw [hbl] at hfb1
          obtain hfl : fb = flds := by simpa using hfb1.symm
          subst hfl
          rw [hasKey_iff_mem, hfb2]
          rw [hasKey_iff_mem] at hk
          exact hk

lemma applyNamespaces_ok_shape {nss : PyDict}
    (hg : ∀ ns fv, lookupKey nss ns = some fv → ∃ fields, fv = Value.vdict fields) :
    ∀ (ents : List (String × Value)) (b : ConfigResolver.Resolved),
    shapeOf b = schemaShape nss →
    ∃ b2, ConfigResolver.applyNamespaces nss b ents = Except.ok b2 ∧
      shapeOf b2 = schemaShape nss
  | [], b, hs => ⟨b, rfl, hs⟩
  | (nsName, ov) :: rest, b, hs => by
      cases hk : hasKey nss nsName with
      | false =>
          rw [applyNamespaces_cons_unknown hk]
          exact applyNamespaces_ok_shape hg rest b hs
      | true =>
          obtain ⟨fv, hfv⟩ := hasKey_some hk
          obtain ⟨fields, hf⟩ := hg _ _ hfv
          subst hf
          cases ov with
          | vdict m =>
              rw [applyNamespaces_cons_known hfv]
              exact applyNamespaces_ok_shape hg rest _
                (applyFieldOverrides_shape hfv m b hs)
          | vnone =>
              rw [applyNamespaces_cons_nondict (fun m => by simp)]
              exact applyNamespaces_ok_shape hg rest b hs
          | vbool b2 =>
              rw [applyNamespaces_cons_nondict (fun m => by simp)]
              exact applyNamespaces_ok_shape hg rest b hs
          | vint n =>
              rw [applyNamespaces_cons_nondict (fun m => by simp)]
              exact applyNamespaces_ok_shape hg rest b hs
          | vfloat q =>
              rw [applyNamespaces_cons_nondict (fun m => by simp)]
              exact applyNamespaces_ok_shape hg rest b hs
          | vstr s =>
              rw [applyNamespaces_cons_nondict (fun m => by simp)]
              exact applyNamespaces_ok_shape hg rest b hs
          | vlist l =>
              rw [applyNamespaces_cons_nondict (fun m => by simp)]
              exact applyNamespaces_ok_shape hg rest b hs

lemma applyNamespaces_notSupplied {nss : PyDict}
    (hg : ∀ ns fv, lookupKey nss ns = some fv → ∃ fields, fv = Value.vdict fields)
    {ns fn : String} :
    ∀ (ents : List (String × Value)) (b : ConfigResolver.Resolved),
    (∀ p ∈ ents, p.1 = ns → ∀ m, p.2 = Value.vdict m → hasKey m fn = false) →
    shapeOf b = schemaShape nss →
    ∃ b2, ConfigResolver.applyNamespaces nss b ents = Except.ok b2 ∧
      shapeOf b2 = schemaShape nss ∧
      ConfigResolver.getField b2 ns fn = ConfigResolver.getField b ns fn
  | [], b, _, hs => ⟨b, rfl, hs, rfl⟩
  | (nsName, ov) :: rest, b, hno, hs => by
      have hnorest : ∀ p ∈ rest, p.1 = ns → ∀ m, p.2 = Value.vdict m →
          hasKey m fn = false :=
        fun p hp => hno p (List.mem_cons_of_mem _ hp)
      cases hk : hasKey nss nsName with
      | false =>
          rw [applyNamespaces_cons_unknown hk]
          exact applyNamespaces_notSupplied hg rest b hnorest hs
      | true =>
          obtain ⟨fv, hfv⟩ := hasKey_some hk
          obtain ⟨fields, hf⟩ := hg _ _ hfv
          subst hf
          cases ov with
          | vdict m =>
              rw [applyNamespaces_cons_known hfv]
              have hs2 := applyFieldOverrides_shape hfv m b hs
              obtain ⟨b2, hok, hsh, hget⟩ :=
                applyNamespaces_notSupplied hg rest
                  (ConfigResolver.applyFieldOverrides fields nsName b m) hnorest hs2
              refine ⟨b2, hok, hsh, ?_⟩
              rw [hget]
              by_cases hns : nsName = ns
              · subst hns
                have hmf : hasKey m fn = false :=
                  hno (nsName, Value.vdict m) (List.mem_cons_self _ _) rfl m rfl
                have hnotin : fn ∉ m.map Prod.fst := by
                  intro hmem
                  rw [hasKey_iff_mem.mpr hmem] at hmf
                  cases hmf
                exact applyFieldOverrides_getField_untouched m b hnotin
              · exact applyFieldOverrides_getField_otherNs
                  (fun hcontra => hns hcontra.symm) m b
          | vnone =>
              rw [applyNamespaces_cons_nondict (fun m => by simp)]
              exact applyNamespaces_notSupplied hg rest b hnorest hs
          | vbool b2 =>
              rw [applyNamespaces_cons_nondict (fun m => by simp)]
              exact applyNamespaces_notSupplied hg rest b hnorest hs
          | vint n =>
              rw [applyNamespaces_cons_nondict (fun m => by simp)]
              exact applyNamespaces_notSupplied hg rest b hnorest hs
          | vfloat q =>
              rw [applyNamespaces_cons_nondict (fun m => by simp)]
              exact applyNamespaces_notSupplied hg rest b hnorest hs
          | vstr s =>
              rw [applyNamespaces_cons_nondict (fun m => by simp)]
              exact applyNamespaces_notSupplied hg rest b hnorest hs
          | vlist l =>
              rw [applyNamespaces_cons_nondict (fun m => by simp)]
              exact applyNamespaces_notSupplied hg rest b hnorest hs

lemma applyNamespaces_target {nss : PyDict}
    (hg : ∀ ns fv, lookupKey nss ns = some fv → ∃ fields, fv = Value.vdict fields)
    {ns fn : String} {flds : PyDict} {um : List (String × Value)} {vNew : Value}
    (hfv : lookupKey nss ns = some (Value.vdict flds))
    (hsf : hasKey flds fn = true)
    (hfu : lookupKey um fn = some vNew)
    (hndum : (um.map Prod.fst).Nodup) :
    ∀ (ents : List (String × Value)) (b : ConfigResolver.Resolved),
    (ents.map Prod.fst).Nodup →
    lookupKey ents ns = some (Value.vdict um) →
    shapeOf b = schemaShape nss →
    ∃ b2, ConfigResolver.applyNamespaces nss b ents = Except.ok b2 ∧
      shapeOf b2 = schemaShape nss ∧
      ConfigResolver.getField b2 ns fn = some vNew
  | [], _, _, hent, _ => by cases hent
  | (nsName, ov) :: rest, b, hnd, hent, hs => by
      have hnd1 : (nsName :: rest.map Prod.fst).Nodup := hnd
      obtain ⟨hnotin, hnd2⟩ := List.nodup_cons.mp hnd1
      by_cases hns : nsName = ns
      · subst hns
        rw [lookupKey, if_pos rfl] at hent
        obtain hov : ov = Value.vdict um := by simpa using hent
        subst hov
        rw [applyNamespaces_cons_known hfv]
        have hb : hasKey b nsName = true := by
          obtain ⟨fb, hfb1, -⟩ := (lookup_of_shape hs nsName).1 flds hfv
          unfold hasKey
          rw [hfb1]
          rfl
        have hs2 := applyFieldOverrides_shape hfv um b hs
        have htarget := applyFieldOverrides_getField_target hsf um b hndum hfu hb
        obtain ⟨b2, hok, hsh, hget⟩ :=
          applyNamespaces_notSupplied hg rest
            (ConfigResolver.applyFieldOverrides flds nsName b um)
            (fun p hp hpns =>
              absurd (List.mem_map.mpr ⟨p, hp, hpns⟩) hnotin)
            hs2
        exact ⟨b2, hok, hsh, by rw [hget, htarget]⟩
      · rw [lookupKey, if_neg hns] at hent
        cases hk : hasKey nss nsName with
        | false =>
            rw [applyNamespaces_cons_unknown hk]
            exact applyNamespaces_target hg hfv hsf hfu hndum rest b hnd2 hent hs
        | true =>
            obtain ⟨fv, hfv2⟩ := hasKey_some hk
            obtain ⟨fields2, hf2⟩ := hg _ _ hfv2
            subst hf2
            cases ov with
            | vdict m =>
                rw [applyNamespaces_cons_known hfv2]
                exact applyNamespaces_target hg hfv hsf hfu hndum rest _ hnd2 hent
                  (applyFieldOverrides_shape hfv2 m b hs)
            | vnone =>
                rw [applyNamespaces_cons_nondict (fun m => by simp)]
                exact applyNamespaces_target hg hfv hsf hfu hndum rest b hnd2 hent hs
            | vbool bb =>
                rw [applyNamespaces_cons_nondict (fun m => by simp)]
                exact applyNamespaces_target hg hfv hsf hfu hndum rest b hnd2 hent hs
            | vint n =>
                rw [applyNamespaces_cons_nondict (fun m => by simp)]
                exact applyNamespaces_target hg hfv hsf hfu hndum rest b hnd2 hent hs
            | vfloat q =>
                rw [applyNamespaces_cons_nondict (fun m => by simp)]
                exact applyNamespaces_target hg hfv hsf hfu hndum rest b hnd2 hent hs
            | vstr s =>
                rw [applyNamespaces_cons_nondict (fun m => by simp)]
                exact applyNamespaces_target hg hfv hsf hfu hndum rest b hnd2 hent hs
            | vlist l =>
                rw [applyNamespaces_cons_nondict (fun m => by simp)]
                exact applyNamespaces_target hg hfv hsf hfu hndum rest b hnd2 hent hs

/-! ### Resolver glue -/

lemma goodNss_dictValues {nss : PyDict} (h : GoodNss nss) :
    ∀ ns fv, lookupKey nss ns = some fv → ∃ fields, fv = Value.vdict fields := by
  intro ns fv hl
  obtain ⟨fields, hf, -⟩ := h (ns, fv) (lookupKey_mem hl)
  exact ⟨fields, hf⟩

lemma goodNss_buildable {nss : PyDict} (h : GoodNss nss) :
    ∀ p ∈ nss, ∃ fields, p.2 = Value.vdict fields ∧
      ∀ q ∈ fields, ∃ fdef, q.2 = Value.vdict fdef ∧ hasKey fdef "default" = true := by
  intro p hp
  obtain ⟨fields, hf, hq⟩ := h p hp
  refine ⟨fields, hf, ?_⟩
  intro q hqm
  obtain ⟨fdef, hfd, hff⟩ := hq q hqm
  exact ⟨fdef, hfd, hff.default_ok⟩

lemma applyOverrides_ok_shape {nss : PyDict}
    (hg : ∀ ns fv, lookupKey nss ns = some fv → ∃ fields, fv = Value.vdict fields)
    (b : ConfigResolver.Resolved) (hs : shapeOf b = schemaShape nss) :
    ∀ ov : Option PyDict, ∃ b2,
      ConfigResolver.applyOverrides b nss ov = Except.ok b2 ∧
      shapeOf b2 = schemaShape nss
  | none => ⟨b, rfl, hs⟩
  | some d => applyNamespaces_ok_shape hg d b hs

lemma supplies_false_entries {d : PyDict} {ns fn : String}
    (h : supplies (some d) ns fn = false) :
    ∀ p ∈ d, p.1 = ns → ∀ m, p.2 = Value.vdict m → hasKey m fn = false := by
  intro p hp hp1 m hp2
  cases hkk : hasKey m fn with
  | false => rfl
  | true =>
      exfalso
      obtain ⟨v, hv⟩ := hasKey_some hkk
      have hmem : m.any (fun q => q.1 == fn) = true :=
        List.any_eq_true.mpr ⟨(fn, v), lookupKey_mem hv, by simp⟩
      have hpred : (fun p : String × Value => p.1 == ns &&
          match p.2 with
          | Value.vdict m => m.any (fun q => q.1 == fn)
          | _ => false) p = true := by
        obtain ⟨p1, p2⟩ := p
        simp only at hp1 hp2
        subst hp1
        subst hp2
        simp [hmem]
      have hany : d.any (fun p => p.1 == ns &&
          match p.2 with
          | Value.vdict m => m.any (fun q => q.1 == fn)
          | _ => false) = true :=
        List.any_eq_true.mpr ⟨p, hp, hpred⟩
      have h2 : d.any (fun p => p.1 == ns &&
          match p.2 with
          | Value.vdict m => m.any (fun q => q.1 == fn)
          | _ => false) = false := h
      rw [hany] at h2
      cases h2

lemma applyOverrides_notSupplied {nss : PyDict}
    (hg : ∀ ns fv, lookupKey nss ns = some fv → ∃ fields, fv = Value.vdict fields)
    {ns fn : String} (ov : Option PyDict) (hno : supplies ov ns fn = false)
    (b : ConfigResolver.Resolved) (hs : shapeOf b = schemaShape nss) :
    ∃ b2, ConfigResolver.applyOverrides b nss ov = Except.ok b2 ∧
      shapeOf b2 = schemaShape nss ∧
      ConfigResolver.getField b2 ns fn = ConfigResolver.getField b ns fn :=
  match ov with
  | none => ⟨b, rfl, hs, rfl⟩
  | some d => applyNamespaces_notSupplied hg d b (supplies_false_entries hno) hs

lemma okBind {α β : Type} (a : α) (f : α → Except PyExn β) :
    (Except.ok a >>= f) = f a := rfl

lemma resolve_eq {schema nss : PyDict} {o u : Option PyDict}
    {b r1 r2 : ConfigResolver.Resolved}
    (hn : lookupKey schema "namespaces" = some (Value.vdict nss))
    (hb : ConfigResolver.buildBase nss = Except.ok b)
    (h1 : ConfigResolver.applyOverrides b nss o = Except.ok r1)
    (h2 : ConfigResolver.applyOverrides r1 nss u = Except.ok r2) :
    ConfigResolver.resolve schema o u = Except.ok r2 := by
  have hgn : ConfigResolver.getNamespaces schema = Except.ok nss := by
    unfold ConfigResolver.getNamespaces
    rw [hn]
  unfold ConfigResolver.resolve
  rw [hgn, okBind, hb, okBind, h1, okBind, h2, okBind]

/-! ### Claims C4, C2, C10 -/

/-- C4: `resolve` raises a missing-key error (`KeyError`) for every schema
mapping lacking the `"namespaces"` key, and returns normally on every
`SchemaValidator`-accepted schema for all org/user override blobs. -/
theorem claim_C4 :
    (∀ (schema : PyDict) (o u : Option PyDict),
       lookupKey schema "namespaces" = none →
       ConfigResolver.resolve schema o u = Except.error PyExn.keyError) ∧
    (∀ (schema : PyDict) (o u : Option PyDict),
       SchemaValidator.validate (Value.vdict schema) = Except.ok [] →
       ∃ r, ConfigResolver.resolve schema o u = Except.ok r) := by
  constructor
  · intro schema o u hn
    unfold ConfigResolver.resolve ConfigResolver.getNamespaces
    rw [hn]
    rfl
  · intro schema o u hOK
    obtain ⟨nss, hn, -, -⟩ := validate_ok_parts hOK
    have hg := schemaOK_goodNss hOK hn
    have hgv := goodNss_dictValues hg
    obtain ⟨b, hb, hshape, -⟩ := buildBase_ok (goodNss_buildable hg)
    obtain ⟨r1, h1, hs1⟩ := applyOverrides_ok_shape hgv b hshape o
    obtain ⟨r2, h2, hs2⟩ := applyOverrides_ok_shape hgv r1 hs1 u
    exact ⟨r2, resolve_eq hn hb h1 h2⟩

/-- C4 witness: evaluated on a schema without `"namespaces"` and on the
accepted `wSchema` with an org override. -/
theorem claim_C4_witness :
    ConfigResolver.resolve [("foo", Value.vint 1)] none none =
      Except.error PyExn.keyError ∧
    ∃ r, ConfigResolver.resolve wSchema
      (some [("payments", Value.vdict [("currency", Value.vstr "EUR")])]) none =
      Except.ok r :=
  ⟨claim_C4.1 [("foo", Value.vint 1)] none none rfl,
   claim_C4.2 wSchema
     (some [("payments", Value.vdict [("currency", Value.vstr "EUR")])]) none rfl⟩

/-- C2: on every accepted schema, `resolve`'s output has exactly the schema's
namespaces as top-level keys and exactly the declared field names inside each
namespace, and every field not supplied by either override layer is bound to
its schema default. -/
theorem claim_C2 (schema nss : PyDict) (o u : Option PyDict)
    (hOK : SchemaValidator.validate (Value.vdict schema) = Except.ok [])
    (hn : lookupKey schema "namespaces" = some (Value.vdict nss)) :
    ∃ r, ConfigResolver.resolve schema o u = Except.ok r ∧
      shapeOf r = schemaShape nss ∧
      (∀ ns fields fn fdef dv,
        lookupKey nss ns = some (Value.vdict fields) →
        lookupKey fields fn = some (Value.vdict fdef) →
        lookupKey fdef "default" = some dv →
        supplies o ns fn = false → supplies u ns fn = false →
        ConfigResolver.getField r ns fn = some dv) := by
  have hg := schemaOK_goodNss hOK hn
  have hgv := goodNss_dictValues hg
  obtain ⟨b, hb, hshape, hget⟩ := buildBase_ok (goodNss_buildable hg)
  obtain ⟨r1, h1, hs1⟩ := applyOverrides_ok_shape hgv b hshape o
  obtain ⟨r2, h2, hs2⟩ := applyOverrides_ok_shape hgv r1 hs1 u
  refine ⟨r2, resolve_eq hn hb h1 h2, hs2, ?_⟩
  intro ns fields fn fdef dv hl1 hl2 hl3 hso hsu
  obtain ⟨r1x, h1x, hs1x, hp1⟩ := applyOverrides_notSupplied hgv o hso b hshape
  rw [h1] at h1x
  obtain hr1 : r1x = r1 := by simpa using h1x.symm
  rw [hr1] at hp1
  obtain ⟨r2x, h2x, hs2x, hp2⟩ := applyOverrides_notSupplied hgv u hsu r1 hs1
  rw [h2] at h2x
  obtain hr2 : r2x = r2 := by simpa using h2x.symm
  rw [hr2] at hp2
  rw [hp2, hp1]
  exact hget ns fields fn fdef dv hl1 hl2 hl3

/-- C2 witness: `wSchema` with an org override on `currency` only;
`max_retries` stays at its default 3 and the shape is the schema's. -/
theorem claim_C2_witness :
    ∃ r, ConfigResolver.resolve wSchema
        (some [("payments", Value.vdict [("currency", Value.vstr "EUR")])])
        none = Except.ok r ∧
      shapeOf r = schemaShape wNss ∧
      ConfigResolver.getField r "payments" "max_retries" = some (Value.vint 3) := by
  obtain ⟨r, hok, hshape, hdef⟩ := claim_C2 wSchema wNss
    (some [("payments", Value.vdict [("currency", Value.vstr "EUR")])]) none
    rfl rfl
  refine ⟨r, hok, hshape, ?_⟩
  exact hdef "payments"
    [("currency", Value.vdict
      [("type", Value.vstr "string"), ("default", Value.vstr "USD")]),
     ("max_retries", Value.vdict
      [("type", Value.vstr "integer"), ("default", Value.vint 3),
       ("required", Value.vbool true)])]
    "max_retries"
    [("type", Value.vstr "integer"), ("default", Value.vint 3),
     ("required", Value.vbool true)]
    (Value.vint 3) rfl rfl rfl rfl rfl

/-! ### Claims C1 and C10 -/

/-- C1: for a field declared in an accepted schema, a user override on it
always wins (whatever the org layer holds), and with no user override
supplying it an org override wins over the schema default. -/
theorem claim_C1 (schema nss flds : PyDict) (ns fn : String) (fdefV : Value)
    (hOK : SchemaValidator.validate (Value.vdict schema) = Except.ok [])
    (hn : lookupKey schema "namespaces" = some (Value.vdict nss))
    (hns : lookupKey nss ns = some (Value.vdict flds))
    (hfd : lookupKey flds fn = some fdefV) :
    (∀ (org : Option PyDict) (ud um : List (String × Value)) (vUser : Value),
       (ud.map Prod.fst).Nodup → lookupKey ud ns = some (Value.vdict um) →
       (um.map Prod.fst).Nodup → lookupKey um fn = some vUser →
       ∃ r, ConfigResolver.resolve schema org (some ud) = Except.ok r ∧
         ConfigResolver.getField r ns fn = some vUser) ∧
    (∀ (od om : List (String × Value)) (vOrg : Value) (user : Option PyDict),
       (od.map Prod.fst).Nodup → lookupKey od ns = some (Value.vdict om) →
       (om.map Prod.fst).Nodup → lookupKey om fn = some vOrg →
       supplies user ns fn = false →
       ∃ r, ConfigResolver.resolve schema (some od) user = Except.ok r ∧
         ConfigResolver.getField r ns fn = some vOrg) := by
  have hg := schemaOK_goodNss hOK hn
  have hgv := goodNss_dictValues hg
  have hsf : hasKey flds fn = true := by unfold hasKey; rw [hfd]; rfl
  obtain ⟨b, hb, hshape, -⟩ := buildBase_ok (goodNss_buildable hg)
  constructor
  · intro org ud um vUser hnd1 hent hnd2 hfu
    obtain ⟨r1, h1, hs1⟩ := applyOverrides_ok_shape hgv b hshape org
    obtain ⟨r2, h2, hs2, hgget⟩ :=
      applyNamespaces_target hgv hns hsf hfu hnd2 ud r1 hnd1 hent hs1
    exact ⟨r2, resolve_eq hn hb h1 h2, hgget⟩
  · intro od om vOrg user hnd1 hent hnd2 hfo hnou
    obtain ⟨r1, h1, hs1, hg1⟩ :=
      applyNamespaces_target hgv hns hsf hfo hnd2 od b hnd1 hent hshape
    obtain ⟨r2, h2, hs2, hp⟩ := applyOverrides_notSupplied hgv user hnou r1 hs1
    refine ⟨r2, resolve_eq hn hb h1 h2, ?_⟩
    rw [hp, hg1]

/-- C1 witness: on `wSchema`, a user override `GBP` beats an org override
`EUR` on `payments.currency`, and the org override `EUR` beats the default
`USD` when the user layer touches another field. -/
theorem claim_C1_witness :
    (∃ r, ConfigResolver.resolve wSchema
        (some [("payments", Value.vdict [("currency", Value.vstr "EUR")])])
        (some [("payments", Value.vdict [("currency", Value.vstr "GBP")])]) =
        Except.ok r ∧
      ConfigResolver.getField r "payments" "currency" = some (Value.vstr "GBP")) ∧
    (∃ r, ConfigResolver.resolve wSchema
        (some [("payments", Value.vdict [("currency", Value.vstr "EUR")])])
        (some [("payments", Value.vdict [("max_retries", Value.vint 5)])]) =
        Except.ok r ∧
      ConfigResolver.getField r "payments" "currency" = some (Value.vstr "EUR")) := by
  constructor
  · exact (claim_C1 wSchema wNss
      [("currency", Value.vdict
        [("type", Value.vstr "string"), ("default", Value.vstr "USD")]),
       ("max_retries", Value.vdict
        [("type", Value.vstr "integer"), ("default", Value.vint 3),
         ("required", Value.vbool true)])]
      "payments" "currency"
      (Value.vdict [("type", Value.vstr "string"), ("default", Value.vstr "USD")])
      rfl rfl rfl rfl).1
      (some [("payments", Value.vdict [("currency", Value.vstr "EUR")])])
      [("payments", Value.vdict [("currency", Value.vstr "GBP")])]
      [("currency", Value.vstr "GBP")] (Value.vstr "GBP")
      (by decide) rfl (by decide) rfl
  · exact (claim_C1 wSchema wNss
      [("currency", Value.vdict
        [("type", Value.vstr "string"), ("default", Value.vstr "USD")]),
       ("max_retries", Value.vdict
        [("type", Value.vstr "integer"), ("default", Value.vint 3),
         ("required", Value.vbool true)])]
      "payments" "currency"
      (Value.vdict [("type", Value.vstr "string"), ("default", Value.vstr "USD")])
      rfl rfl rfl rfl).2
      [("payments", Value.vdict [("currency", Value.vstr "EUR")])]
      [("currency", Value.vstr "EUR")] (Value.vstr "EUR")
      (some [("payments", Value.vdict [("max_retries", Value.vint 5)])])
      (by decide) rfl (by decide) rfl rfl

lemma validate_apply (schema : PyDict) (ov : Option PyDict) (role env : String) :
    OverrideValidationService.validate ⟨schema, ov, role, env⟩ =
      (OverrideValidationService.allOverrideErrors
          (OverrideValidationService.schemaNamespacesOf schema) role env
          (OverrideValidationService.overridesOf ov) >>=
        fun errs => Except.ok (OverrideValidationResult.mk errs.isEmpty errs)) := rfl

lemma allOverrideErrors_emptyNss (role env : String) : ∀ d : PyDict,
    OverrideValidationService.allOverrideErrors (Value.vdict []) role env d =
      Except.ok (d.map (fun p => ErrEntry.mk p.1 "unknown_namespace"))
  | [] => rfl
  | (ns, ov) :: rest => by
      have ih := allOverrideErrors_emptyNss role env rest
      unfold OverrideValidationService.allOverrideErrors
      rw [show OverrideValidationService.namespaceOverrideErrors (Value.vdict [])
            role env ns ov = Except.ok [ErrEntry.mk ns "unknown_namespace"] from rfl]
      rw [okBind, ih, okBind]
      rfl

/-- C10: when the schema mapping lacks `"namespaces"`, the override validator
never raises: every namespace of the blob is reported `unknown_namespace`, an
empty or `None` blob validates with no errors, while `resolve` raises
`KeyError` on the same schema. -/
theorem claim_C10 (schema : PyDict) (role env : String)
    (hn : lookupKey schema "namespaces" = none) :
    (∀ d : PyDict, OverrideValidationService.validate ⟨schema, some d, role, env⟩ =
       Except.ok (OverrideValidationResult.mk
         (d.map (fun p => ErrEntry.mk p.1 "unknown_namespace")).isEmpty
         (d.map (fun p => ErrEntry.mk p.1 "unknown_namespace")))) ∧
    (OverrideValidationService.validate ⟨schema, none, role, env⟩ =
       Except.ok (OverrideValidationResult.mk true [])) ∧
    (∀ o u, ConfigResolver.resolve schema o u = Except.error PyExn.keyError) := by
  have hnv : OverrideValidationService.schemaNamespacesOf schema = Value.vdict [] := by
    unfold OverrideValidationService.schemaNamespacesOf
    rw [hn]
  refine ⟨?_, ?_, ?_⟩
  · intro d
    rw [validate_apply, hnv]
    rw [show OverrideValidationService.overridesOf (some d) = d from rfl]
    rw [allOverrideErrors_emptyNss, okBind]
  · rw [validate_apply, hnv]
    rfl
  · intro o u
    unfold ConfigResolver.resolve ConfigResolver.getNamespaces
    rw [hn]
    rfl

/-- C10 witness: a schema without `"namespaces"`, a two-namespace blob, the
`None` blob, and `resolve` on the same schema. -/
theorem claim_C10_witness :
    OverrideValidationService.validate
      ⟨[("x", Value.vint 1)], some [("a", Value.vdict []), ("b", Value.vint 2)],
        "r", "e"⟩ =
      Except.ok (OverrideValidationResult.mk false
        [ErrEntry.mk "a" "unknown_namespace", ErrEntry.mk "b" "unknown_namespace"]) ∧
    OverrideValidationService.validate ⟨[("x", Value.vint 1)], none, "r", "e"⟩ =
      Except.ok (OverrideValidationResult.mk true []) ∧
    ConfigResolver.resolve [("x", Value.vint 1)] none none =
      Except.error PyExn.keyError := by
  have h := claim_C10 [("x", Value.vint 1)] "r" "e" rfl
  exact ⟨h.1 [("a", Value.vdict []), ("b", Value.vint 2)], h.2.1, h.2.2 none none⟩

/-! ### Override validator never raises on an accepted schema -/

lemma typeMatches_vstr (t : String) (v : Value) :
    ∃ m, typeMatches (Value.vstr t) v = Except.ok m := by
  unfold typeMatches
  split
  all_goals first
    | exact ⟨_, rfl⟩
    | simp_all

lemma typeMatches_true_shape {t : String} {v : Value}
    (hm : typeMatches (Value.vstr t) v = Except.ok true) :
    (t = "integer" → ∃ n, v = Value.vint n) ∧
    (t = "float" → (∃ n, v = Value.vint n) ∨ (∃ q, v = Value.vfloat q)) ∧
    (t = "list" → ∃ l, v = Value.vlist l) := by
  refine ⟨?_, ?_, ?_⟩
  · intro ht
    subst ht
    unfold typeMatches at hm
    cases v with
    | vint n => exact ⟨n, rfl⟩
    | vnone => simp at hm
    | vbool b => simp at hm
    | vfloat q => simp at hm
    | vstr s => simp at hm
    | vlist l => simp at hm
    | vdict m => simp at hm
  · intro ht
    subst ht
    unfold typeMatches at hm
    cases v with
    | vint n => exact Or.inl ⟨n, rfl⟩
    | vfloat q => exact Or.inr ⟨q, rfl⟩
    | vnone => simp at hm
    | vbool b => simp at hm
    | vstr s => simp at hm
    | vlist l => simp at hm
    | vdict m => simp at hm
  · intro ht
    subst ht
    unfold typeMatches at hm
    cases v with
    | vlist l => exact ⟨l, rfl⟩
    | vnone => simp at hm
    | vbool b => simp at hm
    | vint n => simp at hm
    | vfloat q => simp at hm
    | vstr s => simp at hm
    | vdict m => simp at hm

lemma boundLt_ok {a b : Value} (ha : (numVal a).isSome = true)
    (hb : (numVal b).isSome = true) :
    ∃ r, OverrideValidationService.boundLt a b = Except.ok r := by
  unfold OverrideValidationService.boundLt
  obtain ⟨x, hx⟩ := Option.isSome_iff_exists.mp ha
  obtain ⟨y, hy⟩ := Option.isSome_iff_exists.mp hb
  rw [hx, hy]
  exact ⟨_, rfl⟩

lemma isNumericV_numVal {w : Value} (h : isNumericV w = true) :
    (numVal w).isSome = true := by
  cases w <;> simp [isNumericV] at h <;> rfl

lemma minBoundErrors_ok {fp : String} {c : Value} {mv : Option Value}
    (hc : (numVal c).isSome = true)
    (hmv : ∀ w, mv = some w → isNumericV w = true) :
    ∃ es, OverrideValidationService.minBoundErrors fp c mv = Except.ok es ∧
      ∀ e ∈ es, e = ErrEntry.mk fp "constraint_violation" := by
  cases mv with
  | none => exact ⟨[], rfl, by simp⟩
  | some w =>
      obtain ⟨r, hr⟩ := boundLt_ok hc (isNumericV_numVal (hmv w rfl))
      have heq : OverrideValidationService.minBoundErrors fp c (some w) =
          (OverrideValidationService.boundLt c w >>= fun lt =>
            Except.ok (if lt then [ErrEntry.mk fp "constraint_violation"]
                       else [])) := rfl
      rw [heq, hr, okBind]
      refine ⟨_, rfl, ?_⟩
      cases r <;> simp

lemma maxBoundErrors_ok {fp : String} {c : Value} {xv : Option Value}
    (hc : (numVal c).isSome = true)
    (hxv : ∀ w, xv = some w → isNumericV w = true) :
    ∃ es, OverrideValidationService.maxBoundErrors fp c xv = Except.ok es ∧
      ∀ e ∈ es, e = ErrEntry.mk fp "constraint_violation" := by
  cases xv with
  | none => exact ⟨[], rfl, by simp⟩
  | some w =>
      obtain ⟨r, hr⟩ := boundLt_ok (isNumericV_numVal (hxv w rfl)) hc
      have heq : OverrideValidationService.maxBoundErrors fp c (some w) =
          (OverrideValidationService.boundLt w c >>= fun gt =>
            Except.ok (if gt then [ErrEntry.mk fp "constraint_violation"]
                       else [])) := rfl
      rw [heq, hr, okBind]
      refine ⟨_, rfl, ?_⟩
      cases r <;> simp

lemma comparableValue_ok {t : String} {v : Value}
    (hm : typeMatches (Value.vstr t) v = Except.ok true) :
    ∃ comp, OverrideValidationService.comparableValue (Value.vstr t) v =
        Except.ok comp ∧
      ∀ c, comp = some c → (numVal c).isSome = true := by
  obtain ⟨hint, hfloat, hlist⟩ := typeMatches_true_shape hm
  by_cases h1 : t = "integer"
  · subst h1
    obtain ⟨n, hv⟩ := hint rfl
    subst hv
    exact ⟨some (Value.vint n), rfl, by intro c hc; cases hc; rfl⟩
  · by_cases h2 : t = "float"
    · subst h2
      rcases hfloat rfl with ⟨n, hv⟩ | ⟨q, hv⟩ <;> subst hv
      · exact ⟨some (Value.vint n), rfl, by intro c hc; cases hc; rfl⟩
      · exact ⟨some (Value.vfloat q), rfl, by intro c hc; cases hc; rfl⟩
    · by_cases h3 : t = "list"
      · subst h3
        obtain ⟨l, hv⟩ := hlist rfl
        subst hv
        exact ⟨some (Value.vint l.length), rfl, by intro c hc; cases hc; rfl⟩
      · refine ⟨none, ?_, by intro c hc; cases hc⟩
        unfold OverrideValidationService.comparableValue
        split
        · simp_all
        · simp_all
        · simp_all
        · rfl

lemma allowedErrors_ok {fp : String} {v : Value} {av : Option Value}
    (hav : ∀ w, av = some w → ∃ l, w = Value.vlist l) :
    ∃ es, OverrideValidationService.allowedErrors fp v av = Except.ok es ∧
      ∀ e ∈ es, e = ErrEntry.mk fp "constraint_violation" := by
  cases av with
  | none => exact ⟨[], rfl, by simp⟩
  | some w =>
      obtain ⟨l, hw⟩ := hav w rfl
      subst hw
      have heq : OverrideValidationService.allowedErrors fp v
          (some (Value.vlist l)) =
          (Except.ok (l.any (fun av => pyEq v av)) >>= fun isIn =>
            Except.ok (if isIn then []
                       else [ErrEntry.mk fp "constraint_violation"])) := rfl
      rw [heq, okBind]
      refine ⟨_, rfl, ?_⟩
      split <;> simp

lemma boundErrors_do_ok {fp : String} {dt v : Value} {minVal maxVal : Option Value}
    {comp : Option Value}
    (hcomp : OverrideValidationService.comparableValue dt v = Except.ok comp)
    (hcnum : ∀ c, comp = some c → (numVal c).isSome = true)
    (hmin : ∀ w, minVal = some w → isNumericV w = true)
    (hmax : ∀ w, maxVal = some w → isNumericV w = true) :
    ∃ es, (OverrideValidationService.comparableValue dt v >>= fun comp2 =>
      match comp2 with
      | none => Except.ok []
      | some c => do
          let a ← OverrideValidationService.minBoundErrors fp c minVal
          let b ← OverrideValidationService.maxBoundErrors fp c maxVal
          Except.ok (a ++ b)) = Except.ok es ∧
      ∀ e ∈ es, e = ErrEntry.mk fp "constraint_violation" := by
  cases comp with
  | none =>
      rw [hcomp, okBind]
      exact ⟨[], rfl, by simp⟩
  | some c =>
      obtain ⟨es1, h1, ha1⟩ := @minBoundErrors_ok fp c minVal (hcnum c rfl) hmin
      obtain ⟨es2, h2, ha2⟩ := @maxBoundErrors_ok fp c maxVal (hcnum c rfl) hmax
      have hwhole : (OverrideValidationService.comparableValue dt v >>= fun comp2 =>
          match comp2 with
          | none => Except.ok []
          | some c => do
              let a ← OverrideValidationService.minBoundErrors fp c minVal
              let b ← OverrideValidationService.maxBoundErrors fp c maxVal
              Except.ok (a ++ b)) =
          (do
            let a ← OverrideValidationService.minBoundErrors fp c minVal
            let b ← OverrideValidationService.maxBoundErrors fp c maxVal
            (Except.ok (a ++ b) : Except PyExn (List ErrEntry))) := by
        rw [hcomp]
        rfl
      rw [hwhole, h1, okBind, h2, okBind]
      refine ⟨es1 ++ es2, rfl, ?_⟩
      intro e he
      rcases List.mem_append.mp he with h | h
      · exact ha1 e h
      · exact ha2 e h

lemma boundErrors_ok {fp : String} {t : String} {v : Value}
    {minVal maxVal : Option Value}
    (hm : typeMatches (Value.vstr t) v = Except.ok true)
    (hmin : ∀ w, minVal = some w → isNumericV w = true)
    (hmax : ∀ w, maxVal = some w → isNumericV w = true) :
    ∃ es, OverrideValidationService.boundErrors fp (Value.vstr t) v minVal maxVal =
        Except.ok es ∧
      ∀ e ∈ es, e = ErrEntry.mk fp "constraint_violation" := by
  obtain ⟨comp, hcomp, hcnum⟩ := comparableValue_ok hm
  cases minVal with
  | none =>
      cases maxVal with
      | none => exact ⟨[], rfl, by simp⟩
      | some xv => exact boundErrors_do_ok hcomp hcnum hmin hmax
  | some mv =>
      cases maxVal with
      | none => exact boundErrors_do_ok hcomp hcnum hmin hmax
      | some xv => exact boundErrors_do_ok hcomp hcnum hmin hmax

lemma validateConstraints_ok {fp : String} {t : String} {v : Value} {c : PyDict}
    (hm : typeMatches (Value.vstr t) v = Except.ok true)
    (hmin : ∀ w, pyGet c "min" = some w → isNumericV w = true)
    (hmax : ∀ w, pyGet c "max" = some w → isNumericV w = true)
    (hav : ∀ w, pyGet c "allowed_values" = some w → ∃ l, w = Value.vlist l) :
    ∃ es, OverrideValidationService.validateConstraints fp (Value.vstr t) v c =
        Except.ok es ∧
      ∀ e ∈ es, e = ErrEntry.mk fp "constraint_violation" := by
  obtain ⟨es1, h1, ha1⟩ := @boundErrors_ok fp t v (pyGet c "min")
    (pyGet c "max") hm hmin hmax
  obtain ⟨es2, h2, ha2⟩ := @allowedErrors_ok fp v (pyGet c "allowed_values") hav
  unfold OverrideValidationService.validateConstraints
  rw [h1, okBind, h2, okBind]
  refine ⟨es1 ++ es2, rfl, ?_⟩
  intro e he
  rcases List.mem_append.mp he with h | h
  · exact ha1 e h
  · exact ha2 e h

lemma policyDict_ok {fdef : PyDict} (hf : FieldFacts fdef) :
    ∃ p, OverrideValidationService.policyDict fdef = Except.ok p ∧
      (∀ w, pyGet p "editable_by_roles" = some w → ∃ l, w = Value.vlist l) ∧
      (∀ w, pyGet p "environment_restrictions" = some w → ∃ l, w = Value.vlist l) := by
  unfold OverrideValidationService.policyDict
  cases hl : lookupKey fdef "policy" with
  | none =>
      refine ⟨[], rfl, ?_, ?_⟩ <;>
        (intro w hw; simp [pyGet, lookupKey] at hw)
  | some pv =>
      obtain ⟨p, hp, hr, he⟩ := hf.policy_ok pv hl
      subst hp
      exact ⟨p, rfl, hr, he⟩

lemma roleRuleErrors_ok {fp : String} {p : PyDict} {role : String}
    (hr : ∀ w, pyGet p "editable_by_roles" = some w → ∃ l, w = Value.vlist l) :
    ∃ es, OverrideValidationService.roleRuleErrors fp p role = Except.ok es ∧
      ∀ e ∈ es, e = ErrEntry.mk fp "role_forbidden" := by
  unfold OverrideValidationService.roleRuleErrors
  cases hg : pyGet p "editable_by_roles" with
  | none => exact ⟨[], rfl, by simp⟩
  | some w =>
      obtain ⟨l, hw⟩ := hr w hg
      subst hw
      refine ⟨_, rfl, ?_⟩
      split <;> simp

lemma envRuleErrors_ok {fp : String} {p : PyDict} {env : String}
    (he : ∀ w, pyGet p "environment_restrictions" = some w → ∃ l, w = Value.vlist l) :
    ∃ es, OverrideValidationService.envRuleErrors fp p env = Except.ok es ∧
      ∀ e ∈ es, e = ErrEntry.mk fp "env_forbidden" := by
  unfold OverrideValidationService.envRuleErrors
  cases hg : pyGet p "environment_restrictions" with
  | none => exact ⟨[], rfl, by simp⟩
  | some w =>
      obtain ⟨l, hw⟩ := he w hg
      subst hw
      refine ⟨_, rfl, ?_⟩
      split <;> simp

lemma constraintPhase_ok {fdef : PyDict} (hf : FieldFacts fdef)
    {fp : String} {t : String} {v : Value}
    (hm : typeMatches (Value.vstr t) v = Except.ok true) :
    ∃ es, OverrideValidationService.constraintPhase fp fdef (Value.vstr t) v =
        Except.ok es ∧
      ∀ e ∈ es, e = ErrEntry.mk fp "constraint_violation" := by
  unfold OverrideValidationService.constraintPhase
  cases hl : lookupKey fdef "constraints" with
  | none => exact ⟨[], rfl, by simp⟩
  | some cv =>
      obtain ⟨c, hc, hmin, hmax, hav⟩ := hf.constraints_ok cv hl
      subst hc
      cases c with
      | nil => exact ⟨[], rfl, by simp⟩
      | cons x rest =>
          obtain ⟨es, hes, ha⟩ := @validateConstraints_ok fp t v (x :: rest) hm hmin hmax hav
          exact ⟨es, hes, ha⟩

lemma validateFieldOverride_split {fdef : PyDict} (hf : FieldFacts fdef)
    (fp : String) (v : Value) (role env : String) :
    ∃ roleE envE t m tailE,
      OverrideValidationService.declaredTypeOf fdef = Value.vstr t ∧
      typeMatches (Value.vstr t) v = Except.ok m ∧
      OverrideValidationService.validateFieldOverride fp fdef v role env =
        Except.ok (OverrideValidationService.immutableErrors fp fdef ++
          roleE ++ envE ++ tailE) ∧
      (∀ e ∈ roleE, e = ErrEntry.mk fp "role_forbidden") ∧
      (∀ e ∈ envE, e = ErrEntry.mk fp "env_forbidden") ∧
      (m = false → tailE = [ErrEntry.mk fp "type_mismatch"]) ∧
      (m = true → ∀ e ∈ tailE, e = ErrEntry.mk fp "constraint_violation") := by
  obtain ⟨t, hty, hmem6⟩ := hf.type_ok
  have hdt : OverrideValidationService.declaredTypeOf fdef = Value.vstr t := by
    unfold OverrideValidationService.declaredTypeOf
    rw [pyGet_lookup hty]
  have htr : pyTruthy (Value.vstr t) = true := by
    rcases hmem6 with h | h | h | h | h | h <;> subst h <;> rfl
  obtain ⟨p, hp, hr, he⟩ := policyDict_ok hf
  obtain ⟨roleE, hrole, haRole⟩ := @roleRuleErrors_ok fp p role hr
  obtain ⟨envE, henv, haEnv⟩ := @envRuleErrors_ok fp p env he
  obtain ⟨m, hm⟩ := typeMatches_vstr t v
  refine ⟨roleE, envE, t, m, ?_⟩
  unfold OverrideValidationService.validateFieldOverride
  rw [hp, okBind, hrole, okBind, henv, okBind, hdt, if_pos htr, hm, okBind]
  cases m with
  | false =>
      refine ⟨[ErrEntry.mk fp "type_mismatch"], rfl, rfl, ?_, haRole, haEnv,
        fun _ => rfl, fun hcontra => absurd hcontra (by simp)⟩
      rw [if_neg (by simp)]
  | true =>
      obtain ⟨cs, hcs, haCs⟩ := @constraintPhase_ok fdef hf fp t v hm
      refine ⟨cs, rfl, rfl, ?_, haRole, haEnv,
        fun hcontra => absurd hcontra (by simp), fun _ => haCs⟩
      rw [if_pos rfl, hcs, okBind]

lemma immutableErrors_mem {fp : String} {fdef : PyDict} :
    ∀ e ∈ OverrideValidationService.immutableErrors fp fdef,
      e = ErrEntry.mk fp "immutable_field" := by
  unfold OverrideValidationService.immutableErrors
  split <;> simp

lemma validateFieldOverride_ok_codes {fdef : PyDict} (hf : FieldFacts fdef)
    (fp : String) (v : Value) (role env : String) :
    ∃ es, OverrideValidationService.validateFieldOverride fp fdef v role env =
        Except.ok es ∧
      ∀ e ∈ es, e.field = fp ∧
        (e.code = "immutable_field" ∨ e.code = "role_forbidden" ∨
         e.code = "env_forbidden" ∨ e.code = "type_mismatch" ∨
         e.code = "constraint_violation") := by
  obtain ⟨roleE, envE, t, m, tailE, hdt, hm, heq, haR, haE, hf0, hf1⟩ :=
    validateFieldOverride_split hf fp v role env
  refine ⟨_, heq, ?_⟩
  intro e he
  rcases List.mem_append.mp he with he1 | ht
  · rcases List.mem_append.mp he1 with he2 | hee
    · rcases List.mem_append.mp he2 with him | hrr
      · rw [immutableErrors_mem e him]
        exact ⟨rfl, Or.inl rfl⟩
      · rw [haR e hrr]
        exact ⟨rfl, Or.inr (Or.inl rfl)⟩
    · rw [haE e hee]
      exact ⟨rfl, Or.inr (Or.inr (Or.inl rfl))⟩
  · cases m with
    | false =>
        rw [hf0 rfl] at ht
        simp only [List.mem_singleton] at ht
        rw [ht]
        exact ⟨rfl, Or.inr (Or.inr (Or.inr (Or.inl rfl)))⟩
    | true =>
        rw [hf1 rfl e ht]
        exact ⟨rfl, Or.inr (Or.inr (Or.inr (Or.inr rfl)))⟩

lemma missingRequiredErrors_ok {nsName : String} {nsEntries : PyDict} :
    ∀ {sf : PyDict}, (∀ q ∈ sf, ∃ fdef, q.2 = Value.vdict fdef) →
    ∃ es, OverrideValidationService.missingRequiredErrors nsName nsEntries sf =
        Except.ok es ∧
      ∀ e ∈ es, ∃ f, e = ErrEntry.mk (nsName ++ "." ++ f) "missing_required"
  | [], _ => ⟨[], rfl, by simp⟩
  | (fn, fdv) :: rest, hg => by
      obtain ⟨fdef, hfd⟩ := hg (fn, fdv) (List.mem_cons_self _ _)
      simp only at hfd
      subst hfd
      obtain ⟨es, hes, ha⟩ :=
        missingRequiredErrors_ok (fun q hq => hg q (List.mem_cons_of_mem _ hq))
      have heq : OverrideValidationService.missingRequiredErrors nsName nsEntries
          ((fn, Value.vdict fdef) :: rest) =
          (OverrideValidationService.missingRequiredErrors nsName nsEntries rest >>=
            fun tail => Except.ok
              ((match lookupKey fdef "required" with
                | some (Value.vbool true) =>
                    if hasKey nsEntries fn then []
                    else [ErrEntry.mk (nsName ++ "." ++ fn) "missing_required"]
                | _ => []) ++ tail)) := rfl
      rw [heq, hes, okBind]
      refine ⟨_, rfl, ?_⟩
      intro e he
      rcases List.mem_append.mp he with h | h
      · revert h
        split
        · split
          · intro h; simp at h
          · intro h
            simp only [List.mem_singleton] at h
            exact ⟨fn, h⟩
        · intro h; simp at h
      · exact ha e h

lemma perFieldErrors_ok {sf : PyDict}
    (hgood : ∀ q ∈ sf, ∃ fdef, q.2 = Value.vdict fdef ∧ FieldFacts fdef)
    (nsName role env : String) :
    ∀ m : PyDict,
    ∃ es, OverrideValidationService.perFieldErrors sf nsName role env m =
        Except.ok es ∧
      (∀ e ∈ es, e.code = "immutable_field" ∨ e.code = "role_forbidden" ∨
         e.code = "env_forbidden" ∨ e.code = "type_mismatch" ∨
         e.code = "constraint_violation") ∧
      ∀ p ∈ m, ∀ fdef es2, lookupKey sf p.1 = some (Value.vdict fdef) →
        OverrideValidationService.validateFieldOverride (nsName ++ "." ++ p.1)
          fdef p.2 role env = Except.ok es2 → es2 ⊆ es
  | [] => ⟨[], rfl, by simp, by simp⟩
  | (fn, v) :: rest => by
      obtain ⟨es, hes, hcodes, hsub⟩ := perFieldErrors_ok hgood nsName role env rest
      cases hl : lookupKey sf fn with
      | none =>
          have heq : OverrideValidationService.perFieldErrors sf nsName role env
              ((fn, v) :: rest) =
              OverrideValidationService.perFieldErrors sf nsName role env rest := by
            simp only [OverrideValidationService.perFieldErrors]
            rw [hl]
          rw [heq]
          refine ⟨es, hes, hcodes, ?_⟩
          intro p hp fdef es2 hlp hval
          rcases List.mem_cons.mp hp with hp1 | hp2
          · subst hp1
            rw [hl] at hlp
            cases hlp
          · exact hsub p hp2 fdef es2 hlp hval
      | some fv =>
          obtain ⟨fdef2, hfd2, hff⟩ := hgood (fn, fv) (lookupKey_mem hl)
          simp only at hfd2
          subst hfd2
          obtain ⟨es1, h1, hcd1⟩ :=
            validateFieldOverride_ok_codes hff (nsName ++ "." ++ fn) v role env
          have heq : OverrideValidationService.perFieldErrors sf nsName role env
              ((fn, v) :: rest) =
              (OverrideValidationService.validateFieldOverride (nsName ++ "." ++ fn)
                  fdef2 v role env >>= fun here =>
                OverrideValidationService.perFieldErrors sf nsName role env rest >>=
                  fun tail => Except.ok (here ++ tail)) := by
            simp only [OverrideValidationService.perFieldErrors]
            rw [hl]
          rw [heq, h1, okBind, hes, okBind]
          refine ⟨es1 ++ es, rfl, ?_, ?_⟩
          · intro e he
            rcases List.mem_append.mp he with h | h
            · exact (hcd1 e h).2
            · exact hcodes e h
          · intro p hp fdef es2 hlp hval
            rcases List.mem_cons.mp hp with hp1 | hp2
            · subst hp1
              rw [hl] at hlp
              obtain hfd : fdef2 = fdef := by simpa using hlp
              subst hfd
              rw [h1] at hval
              obtain hes2 : es1 = es2 := by simpa using hval
              subst hes2
              exact List.subset_append_left _ _
            · exact (hsub p hp2 fdef es2 hlp hval).trans
                (List.subset_append_right _ _)

lemma unknownFieldErrors_char {sf : PyDict} {nsName : String} :
    ∀ {m : PyDict}, ∀ e ∈ OverrideValidationService.unknownFieldErrors sf nsName m,
      ∃ f, e = ErrEntry.mk (nsName ++ "." ++ f) "unknown_field"
  | [], e, he => by cases he
  | (fn, v) :: rest, e, he => by
      unfold OverrideValidationService.unknownFieldErrors at he
      rcases List.mem_append.mp he with h | h
      · revert h
        split
        · intro h; simp at h
        · intro h
          simp only [List.mem_singleton] at h
          exact ⟨fn, h⟩
      · exact unknownFieldErrors_char e h

lemma unknownFieldErrors_mem {sf : PyDict} {nsName : String} :
    ∀ {m : PyDict} {f : String} {v : Value}, (f, v) ∈ m → hasKey sf f = false →
      ErrEntry.mk (nsName ++ "." ++ f) "unknown_field" ∈
        OverrideValidationService.unknownFieldErrors sf nsName m
  | [], f, v, hm, _ => by cases hm
  | (fn, w) :: rest, f, v, hm, hk => by
      unfold OverrideValidationService.unknownFieldErrors
      rcases List.mem_cons.mp hm with h1 | h2
      · obtain ⟨hf, hv⟩ := Prod.mk.injEq .. |>.mp h1.symm
        subst hf
        rw [hk]
        simp
      · exact List.mem_append.mpr (Or.inr (unknownFieldErrors_mem h2 hk))

lemma hasKey_head {α : Type} (v : α) (ns : String) (rest : List (String × α)) :
    hasKey ((ns, v) :: rest) ns = true := by
  simp [hasKey, lookupKey]

lemma hasKey_tail {α : Type} {v : α} {ns k : String} {rest : List (String × α)}
    (h : hasKey rest k = true) : hasKey ((ns, v) :: rest) k = true := by
  unfold hasKey lookupKey
  split
  · simp
  · exact h

lemma goodNss_lookup {nss : PyDict} (hg : GoodNss nss) {nsName : String}
    {sfv : Value} (hl : lookupKey nss nsName = some sfv) :
    ∃ sf, sfv = Value.vdict sf ∧
      ∀ q ∈ sf, ∃ fdef, q.2 = Value.vdict fdef ∧ FieldFacts fdef := by
  obtain ⟨fields, hf, hinner⟩ := hg (nsName, sfv) (lookupKey_mem hl)
  simp only at hf
  exact ⟨fields, hf, hinner⟩

lemma namespaceOverrideErrors_known {nss sf : PyDict} {nsName : String}
    (hl : lookupKey nss nsName = some (Value.vdict sf)) (role env : String)
    (m : PyDict) :
    OverrideValidationService.namespaceOverrideErrors (Value.vdict nss) role env
        nsName (Value.vdict m) =
      (OverrideValidationService.missingRequiredErrors nsName m sf >>=
        fun missing =>
          OverrideValidationService.perFieldErrors sf nsName role env m >>=
            fun per =>
              Except.ok (OverrideValidationService.unknownFieldErrors sf nsName m ++
                missing ++ per)) := by
  simp only [OverrideValidationService.namespaceOverrideErrors]
  rw [hl]

lemma namespaceOverrideErrors_nondict {nss : PyDict} {nsName : String}
    {sfv : Value} (hl : lookupKey nss nsName = some sfv) (role env : String)
    {nsOv : Value} (hnd : ∀ m, nsOv ≠ Value.vdict m) :
    OverrideValidationService.namespaceOverrideErrors (Value.vdict nss) role env
        nsName nsOv = Except.ok [ErrEntry.mk nsName "unknown_namespace"] := by
  simp only [OverrideValidationService.namespaceOverrideErrors]
  rw [hl]

lemma namespaceOverrideErrors_unknownNs {nss : PyDict} {nsName : String}
    (hl : lookupKey nss nsName = none) (role env : String) (nsOv : Value) :
    OverrideValidationService.namespaceOverrideErrors (Value.vdict nss) role env
        nsName nsOv = Except.ok [ErrEntry.mk nsName "unknown_namespace"] := by
  simp only [OverrideValidationService.namespaceOverrideErrors]
  rw [hl]

lemma namespaceOverrideErrors_ok {nss : PyDict} (hg : GoodNss nss)
    (role env nsName : String) (nsOv : Value) :
    ∃ es, OverrideValidationService.namespaceOverrideErrors (Value.vdict nss)
        role env nsName nsOv = Except.ok es ∧
      ∀ e ∈ es, e.code = "missing_required" →
        ∃ f, e.field = nsName ++ "." ++ f := by
  cases hl : lookupKey nss nsName with
  | none =>
      refine ⟨_, namespaceOverrideErrors_unknownNs hl role env nsOv, ?_⟩
      intro e he hc
      simp only [List.mem_singleton] at he
      rw [he] at hc
      exact absurd
        (show ("unknown_namespace" : String) = "missing_required" from hc)
        (by decide)
  | some sfv =>
      obtain ⟨sf, hf, hinner⟩ := goodNss_lookup hg hl
      subst hf
      cases nsOv
      case vdict m =>
          obtain ⟨missing, hmiss, hmchar⟩ :=
            @missingRequiredErrors_ok nsName m sf
              (fun q hq => ⟨(hinner q hq).choose, (hinner q hq).choose_spec.1⟩)
          obtain ⟨per, hper, hcodes, -⟩ := perFieldErrors_ok hinner nsName role env m
          have heq : OverrideValidationService.namespaceOverrideErrors
              (Value.vdict nss) role env nsName (Value.vdict m) =
              Except.ok (OverrideValidationService.unknownFieldErrors sf nsName m ++
                missing ++ per) := by
            rw [namespaceOverrideErrors_known hl role env m, hmiss, okBind,
              hper, okBind]
          refine ⟨_, heq, ?_⟩
          intro e he hc
          rcases List.mem_append.mp he with h1 | hp
          · rcases List.mem_append.mp h1 with hu | hm2
            · obtain ⟨f, hf2⟩ := unknownFieldErrors_char e hu
              rw [hf2] at hc
              exact absurd
                (show ("unknown_field" : String) = "missing_required" from hc)
                (by decide)
            · obtain ⟨f, hf2⟩ := hmchar e hm2
              rw [hf2]
              exact ⟨f, rfl⟩
          · rcases hcodes e hp with h | h | h | h | h <;> rw [h] at hc <;>
              exact absurd hc (by decide)
      all_goals
        refine ⟨_, namespaceOverrideErrors_nondict hl role env
          (by intro m h; cases h), ?_⟩
      all_goals
        intro e he hc
      all_goals
        simp only [List.mem_singleton] at he
      all_goals
        rw [he] at hc
      all_goals
        exact absurd
          (show ("unknown_namespace" : String) = "missing_required" from hc)
          (by decide)

lemma allOverrideErrors_ok {nss : PyDict} (hg : GoodNss nss) (role env : String) :
    ∀ d : PyDict,
    ∃ errs, OverrideValidationService.allOverrideErrors (Value.vdict nss) role
        env d = Except.ok errs ∧
      (∀ e ∈ errs, e.code = "missing_required" →
        ∃ ns f, hasKey d ns = true ∧ e.field = ns ++ "." ++ f) ∧
      ∀ p ∈ d, ∀ es, OverrideValidationService.namespaceOverrideErrors
          (Value.vdict nss) role env p.1 p.2 = Except.ok es → es ⊆ errs
  | [] => ⟨[], rfl, by simp, by simp⟩
  | (ns, nsOv) :: rest => by
      obtain ⟨errs, he, hchar, hsub⟩ := allOverrideErrors_ok hg role env rest
      obtain ⟨es1, h1, hc1⟩ := namespaceOverrideErrors_ok hg role env ns nsOv
      have heq : OverrideValidationService.allOverrideErrors (Value.vdict nss)
          role env ((ns, nsOv) :: rest) =
          (OverrideValidationService.namespaceOverrideErrors (Value.vdict nss)
              role env ns nsOv >>= fun here =>
            OverrideValidationService.allOverrideErrors (Value.vdict nss) role
                env rest >>= fun tail => Except.ok (here ++ tail)) := rfl
      rw [heq, h1, okBind, he, okBind]
      refine ⟨es1 ++ errs, rfl, ?_, ?_⟩
      · intro e hee hc
        rcases List.mem_append.mp hee with h | h
        · obtain ⟨f, hf⟩ := hc1 e h hc
          exact ⟨ns, f, hasKey_head nsOv ns rest, hf⟩
        · obtain ⟨ns2, f, hk, hf⟩ := hchar e h hc
          exact ⟨ns2, f, hasKey_tail hk, hf⟩
      · intro p hp es hpe
        rcases List.mem_cons.mp hp with hp1 | hp2
        · subst hp1
          rw [h1] at hpe
          obtain hes : es1 = es := by simpa using hpe
          subst hes
          exact List.subset_append_left _ _
        · exact (hsub p hp2 es hpe).trans (List.subset_append_right _ _)

lemma validate_ok {schema : PyDict} {nss : PyDict}
    (hn : lookupKey schema "namespaces" = some (Value.vdict nss))
    (hg : GoodNss nss) (role env : String) (d : PyDict) :
    ∃ errs, OverrideValidationService.validate ⟨schema, some d, role, env⟩ =
        Except.ok (OverrideValidationResult.mk errs.isEmpty errs) ∧
      (∀ e ∈ errs, e.code = "missing_required" →
        ∃ ns f, hasKey d ns = true ∧ e.field = ns ++ "." ++ f) ∧
      ∀ p ∈ d, ∀ es, OverrideValidationService.namespaceOverrideErrors
          (Value.vdict nss) role env p.1 p.2 = Except.ok es → es ⊆ errs := by
  have hnv : OverrideValidationService.schemaNamespacesOf schema =
      Value.vdict nss := by
    unfold OverrideValidationService.schemaNamespacesOf
    rw [hn]
  obtain ⟨errs, he, hchar, hsub⟩ := allOverrideErrors_ok hg role env d
  refine ⟨errs, ?_, hchar, hsub⟩
  rw [validate_apply, hnv]
  rw [show OverrideValidationService.overridesOf (some d) = d from rfl]
  rw [he, okBind]

lemma hasKey_false {α : Type} {d : List (String × α)} {k : String}
    (h : hasKey d k = false) : lookupKey d k = none := by
  unfold hasKey at h
  cases hl : lookupKey d k with
  | none => rfl
  | some v => rw [hl] at h; cases h

lemma isEmpty_false_of_mem {α : Type} {l : List α} {a : α} (h : a ∈ l) :
    l.isEmpty = false := by
  cases l with
  | nil => cases h
  | cons x xs => rfl

/-- C3: on an accepted schema, an override blob naming a namespace the schema
does not declare, or a field the targeted schema namespace does not declare,
is rejected by the override validator (`valid = false` with the matching
`unknown_namespace` / `unknown_field` error), while `resolve` succeeds on any
override layers and its output carries no entry for the unknown key. -/
theorem claim_C3 (schema nss : PyDict) (role env : String) (d : PyDict)
    (hOK : SchemaValidator.validate (Value.vdict schema) = Except.ok [])
    (hn : lookupKey schema "namespaces" = some (Value.vdict nss)) :
    (∀ ns nsOv, (ns, nsOv) ∈ d → hasKey nss ns = false →
      (∃ errs, OverrideValidationService.validate ⟨schema, some d, role, env⟩ =
          Except.ok (OverrideValidationResult.mk errs.isEmpty errs) ∧
        errs.isEmpty = false ∧
        ErrEntry.mk ns "unknown_namespace" ∈ errs) ∧
      (∀ o u, ∃ r, ConfigResolver.resolve schema o u = Except.ok r ∧
        lookupKey r ns = none)) ∧
    (∀ ns m fields fn w, (ns, Value.vdict m) ∈ d →
      lookupKey nss ns = some (Value.vdict fields) →
      (fn, w) ∈ m → hasKey fields fn = false →
      (∃ errs, OverrideValidationService.validate ⟨schema, some d, role, env⟩ =
          Except.ok (OverrideValidationResult.mk errs.isEmpty errs) ∧
        errs.isEmpty = false ∧
        ErrEntry.mk (ns ++ "." ++ fn) "unknown_field" ∈ errs) ∧
      (∀ o u, ∃ r, ConfigResolver.resolve schema o u = Except.ok r ∧
        ConfigResolver.getField r ns fn = none)) := by
  have hg := schemaOK_goodNss hOK hn
  have hgv := goodNss_dictValues hg
  obtain ⟨b, hb, hshape, -⟩ := buildBase_ok (goodNss_buildable hg)
  constructor
  · intro ns nsOv hmem hkf
    have hlnone : lookupKey nss ns = none := hasKey_false hkf
    constructor
    · obtain ⟨errs, hv, -, hsub⟩ := validate_ok hn hg role env d
      have h1 : OverrideValidationService.namespaceOverrideErrors
          (Value.vdict nss) role env ns nsOv =
          Except.ok [ErrEntry.mk ns "unknown_namespace"] :=
        namespaceOverrideErrors_unknownNs hlnone role env nsOv
      have hmem2 : ErrEntry.mk ns "unknown_namespace" ∈ errs :=
        hsub (ns, nsOv) hmem _ h1 (List.mem_singleton_self _)
      exact ⟨errs, hv, isEmpty_false_of_mem hmem2, hmem2⟩
    · intro o u
      obtain ⟨r1, h1, hs1⟩ := applyOverrides_ok_shape hgv b hshape o
      obtain ⟨r2, h2, hs2⟩ := applyOverrides_ok_shape hgv r1 hs1 u
      exact ⟨r2, resolve_eq hn hb h1 h2, (lookup_of_shape hs2 ns).2 hlnone⟩
  · intro ns m fields fn w hmem hl hfm hkf
    have hfnone : lookupKey fields fn = none := hasKey_false hkf
    constructor
    · obtain ⟨errs, hv, -, hsub⟩ := validate_ok hn hg role env d
      obtain ⟨sf, hsf, hinner⟩ := goodNss_lookup hg hl
      obtain hsf2 : fields = sf := by simpa using hsf
      subst hsf2
      obtain ⟨missing, hmiss, -⟩ :=
        @missingRequiredErrors_ok ns m fields
          (fun q hq => ⟨(hinner q hq).choose, (hinner q hq).choose_spec.1⟩)
      obtain ⟨per, hper, -, -⟩ := perFieldErrors_ok hinner ns role env m
      have heq : OverrideValidationService.namespaceOverrideErrors
          (Value.vdict nss) role env ns (Value.vdict m) =
          Except.ok (OverrideValidationService.unknownFieldErrors fields ns m ++
            missing ++ per) := by
        rw [namespaceOverrideErrors_known hl role env m, hmiss, okBind,
          hper, okBind]
      have hu : ErrEntry.mk (ns ++ "." ++ fn) "unknown_field" ∈
          OverrideValidationService.unknownFieldErrors fields ns m :=
        unknownFieldErrors_mem hfm hkf
      have hmem2 : ErrEntry.mk (ns ++ "." ++ fn) "unknown_field" ∈ errs :=
        hsub (ns, Value.vdict m) hmem _ heq
          (List.mem_append.mpr (Or.inl (List.mem_append.mpr (Or.inl hu))))
      exact ⟨errs, hv, isEmpty_false_of_mem hmem2, hmem2⟩
    · intro o u
      obtain ⟨r1, h1, hs1⟩ := applyOverrides_ok_shape hgv b hshape o
      obtain ⟨r2, h2, hs2⟩ := applyOverrides_ok_shape hgv r1 hs1 u
      obtain ⟨fb, hfb, hkeys⟩ := (lookup_of_shape hs2 ns).1 fields hl
      have hfbnone : lookupKey fb fn = none := by
        rw [lookupKey_none_iff, hkeys]
        exact lookupKey_none_iff.mp hfnone
      refine ⟨r2, resolve_eq hn hb h1 h2, ?_⟩
      unfold ConfigResolver.getField
      rw [hfb]
      exact hfbnone

/-- C3 witness: `wSchema` with a blob naming the undeclared namespace
`billing` and the undeclared field `payments.legacy`; the validator flags
both while `resolve` drops both. -/
theorem claim_C3_witness :
    ∃ errs r,
      OverrideValidationService.validate ⟨wSchema,
          some [("billing", Value.vdict []),
                ("payments", Value.vdict [("legacy", Value.vint 1)])],
          "admin", "production"⟩ =
        Except.ok (OverrideValidationResult.mk errs.isEmpty errs) ∧
      errs.isEmpty = false ∧
      ErrEntry.mk "billing" "unknown_namespace" ∈ errs ∧
      ErrEntry.mk ("payments" ++ "." ++ "legacy") "unknown_field" ∈ errs ∧
      ConfigResolver.resolve wSchema
          (some [("billing", Value.vdict []),
                 ("payments", Value.vdict [("legacy", Value.vint 1)])]) none =
        Except.ok r ∧
      lookupKey r "billing" = none ∧
      ConfigResolver.getField r "payments" "legacy" = none := by
  obtain ⟨hA, hB⟩ := claim_C3 wSchema wNss "admin" "production"
    [("billing", Value.vdict []),
     ("payments", Value.vdict [("legacy", Value.vint 1)])] rfl rfl
  obtain ⟨⟨errs1, hv1, he1, hm1⟩, hres1⟩ :=
    hA "billing" (Value.vdict []) (List.mem_cons_self _ _) (by decide)
  obtain ⟨⟨errs2, hv2, he2, hm2⟩, hres2⟩ :=
    hB "payments" [("legacy", Value.vint 1)]
      [("currency", Value.vdict
        [("type", Value.vstr "string"), ("default", Value.vstr "USD")]),
       ("max_retries", Value.vdict
        [("type", Value.vstr "integer"), ("default", Value.vint 3),
         ("required", Value.vbool true)])]
      "legacy" (Value.vint 1)
      (List.mem_cons_of_mem _ (List.mem_cons_self _ _)) rfl
      (List.mem_cons_self _ _) (by decide)
  have hee : Except.ok (OverrideValidationResult.mk errs1.isEmpty errs1) =
      Except.ok (OverrideValidationResult.mk errs2.isEmpty errs2) :=
    hv1.symm.trans hv2
  obtain he : errs1 = errs2 :=
    (by simpa [OverrideValidationResult.mk.injEq] using hee :
      errs1.isEmpty = errs2.isEmpty ∧ errs1 = errs2).2
  subst he
  obtain ⟨r1, hr1, hrb⟩ := hres1
    (some [("billing", Value.vdict []),
           ("payments", Value.vdict [("legacy", Value.vint 1)])]) none
  obtain ⟨r2, hr2, hrf⟩ := hres2
    (some [("billing", Value.vdict []),
           ("payments", Value.vdict [("legacy", Value.vint 1)])]) none
  obtain hr : r1 = r2 := by
    have := hr1.symm.trans hr2
    simpa using this
  subst hr
  exact ⟨errs1, r1, hv1, he1, hm1, hm2, hr1, hrb, hrf⟩

lemma countP_code_zero {code : String} {l : List ErrEntry}
    (h : ∀ e ∈ l, e.code ≠ code) :
    l.countP (fun e => e.code == code) = 0 :=
  List.countP_eq_zero.mpr (fun a ha hc => h a ha (by simpa using hc))

lemma fieldFacts_of_schema {schema nss fields fdef : PyDict} {ns fn : String}
    (hOK : SchemaValidator.validate (Value.vdict schema) = Except.ok [])
    (hn : lookupKey schema "namespaces" = some (Value.vdict nss))
    (hns : lookupKey nss ns = some (Value.vdict fields))
    (hfd : lookupKey fields fn = some (Value.vdict fdef)) :
    FieldFacts fdef := by
  have hg := schemaOK_goodNss hOK hn
  obtain ⟨sf, hsf, hinner⟩ := goodNss_lookup hg hns
  obtain hsf2 : fields = sf := by simpa using hsf
  subst hsf2
  obtain ⟨fdef2, hfd2, hff⟩ := hinner (fn, Value.vdict fdef) (lookupKey_mem hfd)
  simp only at hfd2
  obtain hfd3 : fdef = fdef2 := by simpa using hfd2
  subst hfd3
  exact hff

/-- C5: for a field of an accepted schema whose override value fails the
declared-type check, `_validate_field_override` emits exactly one
`type_mismatch` error for the field and no `constraint_violation` at all —
the constraint checks are skipped. -/
theorem claim_C5 (schema nss fields fdef : PyDict) (ns fn : String) (v : Value)
    (role env : String)
    (hOK : SchemaValidator.validate (Value.vdict schema) = Except.ok [])
    (hn : lookupKey schema "namespaces" = some (Value.vdict nss))
    (hns : lookupKey nss ns = some (Value.vdict fields))
    (hfd : lookupKey fields fn = some (Value.vdict fdef))
    (hmt : typeMatches (OverrideValidationService.declaredTypeOf fdef) v =
      Except.ok false) :
    ∃ es, OverrideValidationService.validateFieldOverride (ns ++ "." ++ fn)
        fdef v role env = Except.ok es ∧
      es.countP (fun e => e.code == "type_mismatch") = 1 ∧
      es.countP (fun e => e.code == "constraint_violation") = 0 := by
  have hff := fieldFacts_of_schema hOK hn hns hfd
  obtain ⟨roleE, envE, t, m, tailE, hdt, hm', heq, haR, haE, hf0, hf1⟩ :=
    validateFieldOverride_split hff (ns ++ "." ++ fn) v role env
  rw [hdt] at hmt
  obtain hm0 : m = false := by simpa using (hmt.symm.trans hm')
  have htail := hf0 hm0
  refine ⟨_, heq, ?_, ?_⟩
  · have hz1 : (OverrideValidationService.immutableErrors (ns ++ "." ++ fn)
        fdef).countP (fun e => e.code == "type_mismatch") = 0 :=
      countP_code_zero (fun e he => by
        rw [immutableErrors_mem e he]
        exact (by decide : ("immutable_field" : String) ≠ "type_mismatch"))
    have hz2 : roleE.countP (fun e => e.code == "type_mismatch") = 0 :=
      countP_code_zero (fun e he => by
        rw [haR e he]
        exact (by decide : ("role_forbidden" : String) ≠ "type_mismatch"))
    have hz3 : envE.countP (fun e => e.code == "type_mismatch") = 0 :=
      countP_code_zero (fun e he => by
        rw [haE e he]
        exact (by decide : ("env_forbidden" : String) ≠ "type_mismatch"))
    rw [htail]
    simp [List.countP_append, List.countP_cons, hz1, hz2, hz3]
  · have hz1 : (OverrideValidationService.immutableErrors (ns ++ "." ++ fn)
        fdef).countP (fun e => e.code == "constraint_violation") = 0 :=
      countP_code_zero (fun e he => by
        rw [immutableErrors_mem e he]
        exact (by decide : ("immutable_field" : String) ≠ "constraint_violation"))
    have hz2 : roleE.countP (fun e => e.code == "constraint_violation") = 0 :=
      countP_code_zero (fun e he => by
        rw [haR e he]
        exact (by decide : ("role_forbidden" : String) ≠ "constraint_violation"))
    have hz3 : envE.countP (fun e => e.code == "constraint_violation") = 0 :=
      countP_code_zero (fun e he => by
        rw [haE e he]
        exact (by decide : ("env_forbidden" : String) ≠ "constraint_violation"))
    rw [htail]
    simp [List.countP_append, List.countP_cons, hz1, hz2, hz3]

/-- C5 witness: `wSchema`'s integer field `payments.max_retries` overridden
with the string `"ten"`. -/
theorem claim_C5_witness :
    ∃ es, OverrideValidationService.validateFieldOverride
        ("payments" ++ "." ++ "max_retries")
        [("type", Value.vstr "integer"), ("default", Value.vint 3),
         ("required", Value.vbool true)]
        (Value.vstr "ten") "admin" "production" = Except.ok es ∧
      es.countP (fun e => e.code == "type_mismatch") = 1 ∧
      es.countP (fun e => e.code == "constraint_violation") = 0 :=
  claim_C5 wSchema wNss
    [("currency", Value.vdict
      [("type", Value.vstr "string"), ("default", Value.vstr "USD")]),
     ("max_retries", Value.vdict
      [("type", Value.vstr "integer"), ("default", Value.vint 3),
       ("required", Value.vbool true)])]
    [("type", Value.vstr "integer"), ("default", Value.vint 3),
     ("required", Value.vbool true)]
    "payments" "max_retries" (Value.vstr "ten") "admin" "production"
    rfl rfl rfl rfl rfl

/-- C6: overriding a field declared `editable: false` with a wrong-typed
value yields both `immutable_field` and `type_mismatch` for that field in the
same error list of the override validator's result — immutability does not
short-circuit the remaining per-field rules. -/
theorem claim_C6 (schema nss fields fdef m d : PyDict) (ns fn : String)
    (v : Value) (role env : String)
    (hOK : SchemaValidator.validate (Value.vdict schema) = Except.ok [])
    (hn : lookupKey schema "namespaces" = some (Value.vdict nss))
    (hns : lookupKey nss ns = some (Value.vdict fields))
    (hfd : lookupKey fields fn = some (Value.vdict fdef))
    (hed : lookupKey fdef "editable" = some (Value.vbool false))
    (hmt : typeMatches (OverrideValidationService.declaredTypeOf fdef) v =
      Except.ok false)
    (hdm : (ns, Value.vdict m) ∈ d) (hfm : (fn, v) ∈ m) :
    ∃ errs, OverrideValidationService.validate ⟨schema, some d, role, env⟩ =
        Except.ok (OverrideValidationResult.mk errs.isEmpty errs) ∧
      ErrEntry.mk (ns ++ "." ++ fn) "immutable_field" ∈ errs ∧
      ErrEntry.mk (ns ++ "." ++ fn) "type_mismatch" ∈ errs := by
  have hg := schemaOK_goodNss hOK hn
  obtain ⟨sf, hsf, hinner⟩ := goodNss_lookup hg hns
  obtain hsf2 : fields = sf := by simpa using hsf
  subst hsf2
  have hff := fieldFacts_of_schema hOK hn hns hfd
  obtain ⟨roleE, envE, t, m', tailE, hdt, hm', heq, haR, haE, hf0, hf1⟩ :=
    validateFieldOverride_split hff (ns ++ "." ++ fn) v role env
  rw [hdt] at hmt
  obtain hm0 : m' = false := by simpa using (hmt.symm.trans hm')
  have htail := hf0 hm0
  have himm : OverrideValidationService.immutableErrors (ns ++ "." ++ fn) fdef =
      [ErrEntry.mk (ns ++ "." ++ fn) "immutable_field"] := by
    unfold OverrideValidationService.immutableErrors
    rw [hed]
  obtain ⟨errs, hv, -, hsub⟩ := validate_ok hn hg role env d
  obtain ⟨missing, hmiss, -⟩ :=
    @missingRequiredErrors_ok ns m fields
      (fun q hq => ⟨(hinner q hq).choose, (hinner q hq).choose_spec.1⟩)
  obtain ⟨per, hper, -, hsubPF⟩ := perFieldErrors_ok hinner ns role env m
  have heqNs : OverrideValidationService.namespaceOverrideErrors
      (Value.vdict nss) role env ns (Value.vdict m) =
      Except.ok (OverrideValidationService.unknownFieldErrors fields ns m ++
        missing ++ per) := by
    rw [namespaceOverrideErrors_known hns role env m, hmiss, okBind, hper, okBind]
  have hes2 := hsubPF (fn, v) hfm fdef _ hfd heq
  have hperInAll : per ⊆ OverrideValidationService.unknownFieldErrors fields ns m ++
      missing ++ per := List.subset_append_right _ _
  have hallInErrs := hsub (ns, Value.vdict m) hdm _ heqNs
  have hchain : ∀ e, e ∈ OverrideValidationService.immutableErrors
      (ns ++ "." ++ fn) fdef ++ roleE ++ envE ++ tailE → e ∈ errs :=
    fun e hee => hallInErrs (hperInAll (hes2 hee))
  refine ⟨errs, hv, ?_, ?_⟩
  · refine hchain _ (List.mem_append.mpr (Or.inl (List.mem_append.mpr
      (Or.inl (List.mem_append.mpr (Or.inl ?_))))))
    rw [himm]
    exact List.mem_singleton_self _
  · refine hchain _ (List.mem_append.mpr (Or.inr ?_))
    rw [htail]
    exact List.mem_singleton_self _

/-- C6 witness: a schema whose string field `payments.locked` is declared
`editable: false`, overridden with the integer `5`. -/
theorem claim_C6_witness :
    ∃ errs, OverrideValidationService.validate
        ⟨[("namespaces", Value.vdict
            [("payments", Value.vdict
              [("locked", Value.vdict
                [("type", Value.vstr "string"), ("default", Value.vstr "x"),
                 ("editable", Value.vbool false)])])])],
         some [("payments", Value.vdict [("locked", Value.vint 5)])],
         "admin", "production"⟩ =
        Except.ok (OverrideValidationResult.mk errs.isEmpty errs) ∧
      ErrEntry.mk ("payments" ++ "." ++ "locked") "immutable_field" ∈ errs ∧
      ErrEntry.mk ("payments" ++ "." ++ "locked") "type_mismatch" ∈ errs :=
  claim_C6
    [("namespaces", Value.vdict
      [("payments", Value.vdict
        [("locked", Value.vdict
          [("type", Value.vstr "string"), ("default", Value.vstr "x"),
           ("editable", Value.vbool false)])])])]
    [("payments", Value.vdict
      [("locked", Value.vdict
        [("type", Value.vstr "string"), ("default", Value.vstr "x"),
         ("editable", Value.vbool false)])])]
    [("locked", Value.vdict
      [("type", Value.vstr "string"), ("default", Value.vstr "x"),
       ("editable", Value.vbool false)])]
    [("type", Value.vstr "string"), ("default", Value.vstr "x"),
     ("editable", Value.vbool false)]
    [("locked", Value.vint 5)]
    [("payments", Value.vdict [("locked", Value.vint 5)])]
    "payments" "locked" (Value.vint 5) "admin" "production"
    rfl rfl rfl rfl rfl rfl
    (List.mem_cons_self _ _) (List.mem_cons_self _ _)

lemma string_append_cancel {p a b : String} (h : p ++ a = p ++ b) : a = b := by
  have h2 := congrArg String.data h
  simp only [String.data_append] at h2
  exact String.ext (List.append_cancel_left h2)

lemma missingRequiredErrors_countZero {nsName : String} {nsEntries : PyDict}
    {fn : String} :
    ∀ {sf : PyDict} {es : List ErrEntry},
      OverrideValidationService.missingRequiredErrors nsName nsEntries sf =
        Except.ok es →
      fn ∉ sf.map Prod.fst →
      es.countP (fun e => e.field == nsName ++ "." ++ fn &&
        e.code == "missing_required") = 0
  | [], es, h, _ => by
      have h0 : Except.ok ([] : List ErrEntry) = Except.ok es := h
      obtain hes : es = [] := by simpa using h0.symm
      subst hes
      rfl
  | (f', fdv) :: rest, es, h, hnot => by
      have hsplit : ¬f' = fn ∧ fn ∉ rest.map Prod.fst := by
        constructor
        · intro hc
          exact hnot (by rw [hc]; exact List.mem_cons_self _ _)
        · intro hc
          exact hnot (List.mem_cons_of_mem _ hc)
      cases fdv with
      | vdict fdef =>
          have heq : OverrideValidationService.missingRequiredErrors nsName
              nsEntries ((f', Value.vdict fdef) :: rest) =
              (OverrideValidationService.missingRequiredErrors nsName nsEntries
                  rest >>= fun tail => Except.ok
                ((match lookupKey fdef "required" with
                  | some (Value.vbool true) =>
                      if hasKey nsEntries f' then []
                      else [ErrEntry.mk (nsName ++ "." ++ f') "missing_required"]
                  | _ => []) ++ tail)) := rfl
          rw [heq] at h
          obtain ⟨tail, htail, h2⟩ := bindOk h
          have hes : (match lookupKey fdef "required" with
              | some (Value.vbool true) =>
                  if hasKey nsEntries f' then []
                  else [ErrEntry.mk (nsName ++ "." ++ f') "missing_required"]
              | _ => []) ++ tail = es := by simpa using h2
          rw [← hes]
          have hstr : (nsName ++ "." ++ f') ≠ (nsName ++ "." ++ fn) :=
            fun hc => hsplit.1 (string_append_cancel hc)
          have hhead : (match lookupKey fdef "required" with
              | some (Value.vbool true) =>
                  if hasKey nsEntries f' then []
                  else [ErrEntry.mk (nsName ++ "." ++ f') "missing_required"]
              | _ => []).countP (fun e : ErrEntry => e.field == nsName ++ "." ++ fn &&
                e.code == "missing_required") = 0 := by
            split
            · split
              · rfl
              · simp [List.countP_cons, hstr]
            · rfl
          rw [List.countP_append, hhead,
            missingRequiredErrors_countZero htail hsplit.2]
      | vnone => exact Except.noConfusion h
      | vbool b => exact Except.noConfusion h
      | vint n => exact Except.noConfusion h
      | vfloat q => exact Except.noConfusion h
      | vstr s => exact Except.noConfusion h
      | vlist l => exact Except.noConfusion h

lemma missingRequiredErrors_countOne {nsName : String} {nsEntries : PyDict}
    {fn : String} :
    ∀ {sf : PyDict}, (∀ q ∈ sf, ∃ fdef, q.2 = Value.vdict fdef) →
      (sf.map Prod.fst).Nodup →
      ∀ {fdef : PyDict}, lookupKey sf fn = some (Value.vdict fdef) →
      lookupKey fdef "required" = some (Value.vbool true) →
      hasKey nsEntries fn = false →
      ∃ es, OverrideValidationService.missingRequiredErrors nsName nsEntries sf =
          Except.ok es ∧
        es.countP (fun e => e.field == nsName ++ "." ++ fn &&
          e.code == "missing_required") = 1
  | [], _, _, fdef, h, _, _ => by cases h
  | (f', fdv) :: rest, hg, hnd, fdef, hl, hreq, habs => by
      have hnd2 : (f' :: rest.map Prod.fst).Nodup := by simpa using hnd
      by_cases hf : f' = fn
      · subst hf
        have hfdv : fdv = Value.vdict fdef := by
          simpa [lookupKey] using hl
        subst hfdv
        have hnotin : f' ∉ rest.map Prod.fst := (List.nodup_cons.mp hnd2).1
        obtain ⟨tail, htail, -⟩ :=
          @missingRequiredErrors_ok nsName nsEntries rest
            (fun q hq => hg q (List.mem_cons_of_mem _ hq))
        have heq : OverrideValidationService.missingRequiredErrors nsName
            nsEntries ((f', Value.vdict fdef) :: rest) =
            (OverrideValidationService.missingRequiredErrors nsName nsEntries
                rest >>= fun tail2 => Except.ok
              ((match lookupKey fdef "required" with
                | some (Value.vbool true) =>
                    if hasKey nsEntries f' then []
                    else [ErrEntry.mk (nsName ++ "." ++ f') "missing_required"]
                | _ => []) ++ tail2)) := rfl
        rw [heq, htail, okBind]
        have hhead : (match lookupKey fdef "required" with
            | some (Value.vbool true) =>
                if hasKey nsEntries f' then []
                else [ErrEntry.mk (nsName ++ "." ++ f') "missing_required"]
            | _ => []) =
            [ErrEntry.mk (nsName ++ "." ++ f') "missing_required"] := by
          rw [hreq, habs]
          rfl
        refine ⟨_, rfl, ?_⟩
        rw [hhead, List.countP_append,
          missingRequiredErrors_countZero htail hnotin]
        simp [List.countP_cons]
      · have hl2 : lookupKey rest fn = some (Value.vdict fdef) := by
          simpa [lookupKey, hf] using hl
        obtain ⟨fdef1, hfdv⟩ := hg (f', fdv) (List.mem_cons_self _ _)
        simp only at hfdv
        subst hfdv
        obtain ⟨tail, htail, hcnt⟩ :=
          missingRequiredErrors_countOne
            (fun q hq => hg q (List.mem_cons_of_mem _ hq))
            (List.nodup_cons.mp hnd2).2 hl2 hreq habs
        have heq : OverrideValidationService.missingRequiredErrors nsName
            nsEntries ((f', Value.vdict fdef1) :: rest) =
            (OverrideValidationService.missingRequiredErrors nsName nsEntries
                rest >>= fun tail2 => Except.ok
              ((match lookupKey fdef1 "required" with
                | some (Value.vbool true) =>
                    if hasKey nsEntries f' then []
                    else [ErrEntry.mk (nsName ++ "." ++ f') "missing_required"]
                | _ => []) ++ tail2)) := rfl
        rw [heq, htail, okBind]
        have hstr : (nsName ++ "." ++ f') ≠ (nsName ++ "." ++ fn) :=
          fun hc => hf (string_append_cancel hc)
        have hhead : (match lookupKey fdef1 "required" with
            | some (Value.vbool true) =>
                if hasKey nsEntries f' then []
                else [ErrEntry.mk (nsName ++ "." ++ f') "missing_required"]
            | _ => []).countP (fun e : ErrEntry => e.field == nsName ++ "." ++ fn &&
              e.code == "missing_required") = 0 := by
          split
          · split
            · rfl
            · simp [List.countP_cons, hstr]
          · rfl
        refine ⟨_, rfl, ?_⟩
        rw [List.countP_append, hhead, hcnt]

/-- C8: when an override blob touches a schema namespace at all, every
`required: true` field of that namespace absent from the touched mapping
yields exactly one `missing_required` error (also when only another field is
touched), and that error reaches the validator's result; conversely every
`missing_required` error of any run names a namespace present in the blob. -/
theorem claim_C8 (schema nss fields fdef m d : PyDict) (ns fn : String)
    (role env : String)
    (hOK : SchemaValidator.validate (Value.vdict schema) = Except.ok [])
    (hn : lookupKey schema "namespaces" = some (Value.vdict nss))
    (hns : lookupKey nss ns = some (Value.vdict fields))
    (hnd : (fields.map Prod.fst).Nodup)
    (hfd : lookupKey fields fn = some (Value.vdict fdef))
    (hreq : lookupKey fdef "required" = some (Value.vbool true))
    (hdm : (ns, Value.vdict m) ∈ d)
    (habs : hasKey m fn = false) :
    (∃ es, OverrideValidationService.namespaceOverrideErrors (Value.vdict nss)
        role env ns (Value.vdict m) = Except.ok es ∧
      es.countP (fun e : ErrEntry => e.field == ns ++ "." ++ fn &&
        e.code == "missing_required") = 1 ∧
      ∃ errs, OverrideValidationService.validate ⟨schema, some d, role, env⟩ =
          Except.ok (OverrideValidationResult.mk errs.isEmpty errs) ∧
        ErrEntry.mk (ns ++ "." ++ fn) "missing_required" ∈ errs) ∧
    (∀ d2 : PyDict, ∃ errs2,
      OverrideValidationService.validate ⟨schema, some d2, role, env⟩ =
        Except.ok (OverrideValidationResult.mk errs2.isEmpty errs2) ∧
      ∀ e ∈ errs2, e.code = "missing_required" →
        ∃ ns2 f2, hasKey d2 ns2 = true ∧ e.field = ns2 ++ "." ++ f2) := by
  have hg := schemaOK_goodNss hOK hn
  obtain ⟨sf, hsf, hinner⟩ := goodNss_lookup hg hns
  obtain hsf2 : fields = sf := by simpa using hsf
  subst hsf2
  constructor
  · obtain ⟨missing, hmiss, hcnt⟩ :=
      @missingRequiredErrors_countOne ns m fn fields
        (fun q hq => ⟨(hinner q hq).choose, (hinner q hq).choose_spec.1⟩)
        hnd fdef hfd hreq habs
    obtain ⟨per, hper, hcodes, -⟩ := perFieldErrors_ok hinner ns role env m
    have heqNs : OverrideValidationService.namespaceOverrideErrors
        (Value.vdict nss) role env ns (Value.vdict m) =
        Except.ok (OverrideValidationService.unknownFieldErrors fields ns m ++
          missing ++ per) := by
      rw [namespaceOverrideErrors_known hns role env m, hmiss, okBind,
        hper, okBind]
    have hzU : (OverrideValidationService.unknownFieldErrors fields ns m).countP
        (fun e : ErrEntry => e.field == ns ++ "." ++ fn &&
          e.code == "missing_required") = 0 :=
      List.countP_eq_zero.mpr (fun a ha => by
        obtain ⟨f, hf⟩ := unknownFieldErrors_char a ha
        rw [hf]
        simp [show (("unknown_field" : String) == "missing_required") = false
          from by decide])
    have hzP : per.countP (fun e : ErrEntry => e.field == ns ++ "." ++ fn &&
        e.code == "missing_required") = 0 :=
      List.countP_eq_zero.mpr (fun a ha => by
        rcases hcodes a ha with h | h | h | h | h <;> rw [h] <;> simp [h])
    have hcount : (OverrideValidationService.unknownFieldErrors fields ns m ++
        missing ++ per).countP (fun e : ErrEntry => e.field == ns ++ "." ++ fn &&
          e.code == "missing_required") = 1 := by
      rw [List.countP_append, List.countP_append, hzU, hzP, hcnt]
    refine ⟨_, heqNs, hcount, ?_⟩
    obtain ⟨errs, hv, -, hsub⟩ := validate_ok hn hg role env d
    have hpos : 0 < (OverrideValidationService.unknownFieldErrors fields ns m ++
        missing ++ per).countP (fun e : ErrEntry => e.field == ns ++ "." ++ fn &&
          e.code == "missing_required") := by
      rw [hcount]
      exact Nat.zero_lt_one
    obtain ⟨a, ha, hpa⟩ := List.countP_pos_iff.mp hpos
    have hfa : a.field = ns ++ "." ++ fn ∧ a.code = "missing_required" := by
      have := hpa
      simp only [Bool.and_eq_true, beq_iff_eq] at this
      exact this
    have haeq : a = ErrEntry.mk (ns ++ "." ++ fn) "missing_required" := by
      cases a
      simp only at hfa
      rw [hfa.1, hfa.2]
    refine ⟨errs, hv, ?_⟩
    rw [← haeq]
    exact hsub (ns, Value.vdict m) hdm _ heqNs ha
  · intro d2
    obtain ⟨errs2, hv2, hchar2, -⟩ := validate_ok hn hg role env d2
    exact ⟨errs2, hv2, hchar2⟩

/-- C8 witness: `wSchema`'s required field `payments.max_retries` with an
override touching only `payments.currency`. -/
theorem claim_C8_witness :
    (∃ es, OverrideValidationService.namespaceOverrideErrors (Value.vdict wNss)
        "admin" "production" "payments"
        (Value.vdict [("currency", Value.vstr "EUR")]) = Except.ok es ∧
      es.countP (fun e : ErrEntry =>
        e.field == "payments" ++ "." ++ "max_retries" &&
        e.code == "missing_required") = 1 ∧
      ∃ errs, OverrideValidationService.validate ⟨wSchema,
          some [("payments", Value.vdict [("currency", Value.vstr "EUR")])],
          "admin", "production"⟩ =
          Except.ok (OverrideValidationResult.mk errs.isEmpty errs) ∧
        ErrEntry.mk ("payments" ++ "." ++ "max_retries") "missing_required" ∈
          errs) ∧
    (∀ d2 : PyDict, ∃ errs2,
      OverrideValidationService.validate ⟨wSchema, some d2,
          "admin", "production"⟩ =
        Except.ok (OverrideValidationResult.mk errs2.isEmpty errs2) ∧
      ∀ e ∈ errs2, e.code = "missing_required" →
        ∃ ns2 f2, hasKey d2 ns2 = true ∧ e.field = ns2 ++ "." ++ f2) :=
  claim_C8 wSchema wNss
    [("currency", Value.vdict
      [("type", Value.vstr "string"), ("default", Value.vstr "USD")]),
     ("max_retries", Value.vdict
      [("type", Value.vstr "integer"), ("default", Value.vint 3),
       ("required", Value.vbool true)])]
    [("type", Value.vstr "integer"), ("default", Value.vint 3),
     ("required", Value.vbool true)]
    [("currency", Value.vstr "EUR")]
    [("payments", Value.vdict [("currency", Value.vstr "EUR")])]
    "payments" "max_retries" "admin" "production"
    rfl rfl rfl (by decide) rfl rfl (List.mem_cons_self _ _) (by decide)

lemma comparableValue_other {t : String} (h1 : t ≠ "integer") (h2 : t ≠ "float")
    (h3 : t ≠ "list") (v : Value) :
    OverrideValidationService.comparableValue (Value.vstr t) v =
      Except.ok none := by
  simp only [OverrideValidationService.comparableValue]
  split
  · next d heq => exact absurd (by simpa using heq) h1
  · next d heq => exact absurd (by simpa using heq) h2
  · next d heq => exact absurd (by simpa using heq) h3
  · rfl

lemma specComparable_other {t : String} (h1 : t ≠ "integer") (h2 : t ≠ "float")
    (h3 : t ≠ "list") (v : Value) :
    specComparable (Value.vstr t) v = none := by
  simp only [specComparable]
  split
  · next d heq => exact absurd (by simpa using heq) h1
  · next d heq => exact absurd (by simpa using heq) h2
  · next d heq => exact absurd (by simpa using heq) h3
  · rfl

lemma comparableValue_spec {t : String} {v : Value}
    (hm : typeMatches (Value.vstr t) v = Except.ok true) :
    (∃ cV q, OverrideValidationService.comparableValue (Value.vstr t) v =
        Except.ok (some cV) ∧ numVal cV = some q ∧
        specComparable (Value.vstr t) v = some q) ∨
    (OverrideValidationService.comparableValue (Value.vstr t) v =
        Except.ok none ∧
      specComparable (Value.vstr t) v = none) := by
  obtain ⟨hint, hfl, hlst⟩ := typeMatches_true_shape hm
  by_cases h1 : t = "integer"
  · subst h1
    obtain ⟨n, hv⟩ := hint rfl
    subst hv
    exact Or.inl ⟨Value.vint n, (n : ℚ), rfl, rfl, rfl⟩
  by_cases h2 : t = "float"
  · subst h2
    rcases hfl rfl with ⟨n, hv⟩ | ⟨q, hv⟩ <;> subst hv
    · exact Or.inl ⟨Value.vint n, (n : ℚ), rfl, rfl, rfl⟩
    · exact Or.inl ⟨Value.vfloat q, q, rfl, rfl, rfl⟩
  by_cases h3 : t = "list"
  · subst h3
    obtain ⟨l, hv⟩ := hlst rfl
    subst hv
    refine Or.inl ⟨Value.vint l.length, (l.length : ℚ), rfl, ?_, rfl⟩
    simp [numVal]
  · exact Or.inr ⟨comparableValue_other h1 h2 h3 v,
      specComparable_other h1 h2 h3 v⟩

lemma allowedErrors_spec {fp : String} {v : Value} {c : PyDict}
    (hav : ∀ w, pyGet c "allowed_values" = some w → ∃ l, w = Value.vlist l) :
    OverrideValidationService.allowedErrors fp v (pyGet c "allowed_values") =
      Except.ok (match pyGet c "allowed_values" with
        | some (Value.vlist avs) =>
            if avs.any (fun av => pyEq v av) then []
            else [ErrEntry.mk fp "constraint_violation"]
        | _ => []) := by
  cases hw : pyGet c "allowed_values" with
  | none => rfl
  | some w =>
      obtain ⟨l, hl⟩ := hav w hw
      subst hl
      rfl

lemma boundErrors_eq_min {fp : String} {dt v : Value} (mv : Value)
    (maxO : Option Value) :
    OverrideValidationService.boundErrors fp dt v (some mv) maxO =
      (OverrideValidationService.comparableValue dt v >>= fun comp =>
        match comp with
        | none => Except.ok []
        | some cV =>
            OverrideValidationService.minBoundErrors fp cV (some mv) >>=
              fun a => OverrideValidationService.maxBoundErrors fp cV maxO >>=
                fun b => Except.ok (a ++ b)) := rfl

lemma boundErrors_eq_max {fp : String} {dt v : Value} (xv : Value) :
    OverrideValidationService.boundErrors fp dt v none (some xv) =
      (OverrideValidationService.comparableValue dt v >>= fun comp =>
        match comp with
        | none => Except.ok []
        | some cV =>
            OverrideValidationService.minBoundErrors fp cV none >>=
              fun a =>
                OverrideValidationService.maxBoundErrors fp cV (some xv) >>=
                  fun b => Except.ok (a ++ b)) := rfl

lemma validateConstraints_eq (fp : String) (dt v : Value) (c : PyDict) :
    OverrideValidationService.validateConstraints fp dt v c =
      (OverrideValidationService.boundErrors fp dt v (pyGet c "min")
          (pyGet c "max") >>= fun b =>
        OverrideValidationService.allowedErrors fp v
            (pyGet c "allowed_values") >>= fun a =>
          Except.ok (b ++ a)) := rfl

lemma validateConstraints_spec_none {fp t : String} {v : Value} {c : PyDict}
    (hcv : OverrideValidationService.comparableValue (Value.vstr t) v =
      Except.ok none)
    (hsc : specComparable (Value.vstr t) v = none)
    (hav : ∀ w, pyGet c "allowed_values" = some w → ∃ l, w = Value.vlist l) :
    OverrideValidationService.validateConstraints fp (Value.vstr t) v c =
      Except.ok (constraintSpecErrors fp (Value.vstr t) v c) := by
  have hb : OverrideValidationService.boundErrors fp (Value.vstr t) v
      (pyGet c "min") (pyGet c "max") = Except.ok [] := by
    cases hmn : pyGet c "min" with
    | none =>
        cases hmx : pyGet c "max" with
        | none => rfl
        | some xv => rw [boundErrors_eq_max xv, hcv, okBind]
    | some mv => rw [boundErrors_eq_min mv (pyGet c "max"), hcv, okBind]
  have hspec : constraintSpecErrors fp (Value.vstr t) v c =
      (match pyGet c "allowed_values" with
        | some (Value.vlist avs) =>
            if avs.any (fun av => pyEq v av) then []
            else [ErrEntry.mk fp "constraint_violation"]
        | _ => []) := by
    simp only [constraintSpecErrors, hsc]
    simp
  rw [validateConstraints_eq, hb, okBind, allowedErrors_spec hav, okBind, hspec]
  simp

lemma validateConstraints_spec_some {fp t : String} {v cV : Value} {q : ℚ}
    {c : PyDict}
    (hcv : OverrideValidationService.comparableValue (Value.vstr t) v =
      Except.ok (some cV))
    (hnum : numVal cV = some q)
    (hsc : specComparable (Value.vstr t) v = some q)
    (hminN : ∀ w, pyGet c "min" = some w → isNumericV w = true)
    (hmaxN : ∀ w, pyGet c "max" = some w → isNumericV w = true)
    (hav : ∀ w, pyGet c "allowed_values" = some w → ∃ l, w = Value.vlist l) :
    OverrideValidationService.validateConstraints fp (Value.vstr t) v c =
      Except.ok (constraintSpecErrors fp (Value.vstr t) v c) := by
  have hminE : ∀ mv : Value, isNumericV mv = true →
      ∃ mq, numVal mv = some mq ∧
        OverrideValidationService.minBoundErrors fp cV (some mv) =
          Except.ok (if q < mq then [ErrEntry.mk fp "constraint_violation"]
            else []) := by
    intro mv hmv
    obtain ⟨mq, hmq⟩ := Option.isSome_iff_exists.mp (isNumericV_numVal hmv)
    refine ⟨mq, hmq, ?_⟩
    have heq : OverrideValidationService.minBoundErrors fp cV (some mv) =
        (OverrideValidationService.boundLt cV mv >>= fun lt =>
          Except.ok (if lt then [ErrEntry.mk fp "constraint_violation"]
            else [])) := rfl
    have hblt : OverrideValidationService.boundLt cV mv =
        Except.ok (if q < mq then true else false) := by
      unfold OverrideValidationService.boundLt
      rw [hnum, hmq]
    rw [heq, hblt, okBind]
    by_cases hq : q < mq
    · simp [hq]
    · simp [hq]
  have hmaxE : ∀ xv : Value, isNumericV xv = true →
      ∃ xq, numVal xv = some xq ∧
        OverrideValidationService.maxBoundErrors fp cV (some xv) =
          Except.ok (if xq < q then [ErrEntry.mk fp "constraint_violation"]
            else []) := by
    intro xv hxv
    obtain ⟨xq, hxq⟩ := Option.isSome_iff_exists.mp (isNumericV_numVal hxv)
    refine ⟨xq, hxq, ?_⟩
    have heq : OverrideValidationService.maxBoundErrors fp cV (some xv) =
        (OverrideValidationService.boundLt xv cV >>= fun gt =>
          Except.ok (if gt then [ErrEntry.mk fp "constraint_violation"]
            else [])) := rfl
    have hblt : OverrideValidationService.boundLt xv cV =
        Except.ok (if xq < q then true else false) := by
      unfold OverrideValidationService.boundLt
      rw [hnum, hxq]
    rw [heq, hblt, okBind]
    by_cases hq : xq < q
    · simp [hq]
    · simp [hq]
  cases hmn : pyGet c "min" with
  | none =>
      cases hmx : pyGet c "max" with
      | none =>
          rw [validateConstraints_eq, hmn, hmx,
            show OverrideValidationService.boundErrors fp (Value.vstr t) v
              none none = Except.ok [] from rfl,
            okBind, allowedErrors_spec hav, okBind]
          simp only [constraintSpecErrors, hsc, hmn, hmx]
          simp
      | some xv =>
          obtain ⟨xq, hxq, hmaxEq⟩ := hmaxE xv (hmaxN xv hmx)
          rw [validateConstraints_eq, hmn, hmx, boundErrors_eq_max xv,
            hcv, okBind]
          show (OverrideValidationService.minBoundErrors fp cV none >>=
              fun a =>
                OverrideValidationService.maxBoundErrors fp cV (some xv) >>=
                  fun b => Except.ok (a ++ b)) >>= _ = _
          rw [show OverrideValidationService.minBoundErrors fp cV none =
              Except.ok [] from rfl, okBind, hmaxEq, okBind, okBind,
            allowedErrors_spec hav, okBind]
          simp only [constraintSpecErrors, hsc, hmn, hmx, hxq]
  | some mv =>
      obtain ⟨mq, hmq, hminEq⟩ := hminE mv (hminN mv hmn)
      cases hmx : pyGet c "max" with
      | none =>
          rw [validateConstraints_eq, hmn, hmx, boundErrors_eq_min mv none,
            hcv, okBind]
          show (OverrideValidationService.minBoundErrors fp cV (some mv) >>=
              fun a =>
                OverrideValidationService.maxBoundErrors fp cV none >>=
                  fun b => Except.ok (a ++ b)) >>= _ = _
          rw [hminEq, okBind,
            show OverrideValidationService.maxBoundErrors fp cV none =
              Except.ok [] from rfl, okBind, okBind,
            allowedErrors_spec hav, okBind]
          simp only [constraintSpecErrors, hsc, hmn, hmx, hmq]
      | some xv =>
          obtain ⟨xq, hxq, hmaxEq⟩ := hmaxE xv (hmaxN xv hmx)
          rw [validateConstraints_eq, hmn, hmx,
            boundErrors_eq_min mv (some xv), hcv, okBind]
          show (OverrideValidationService.minBoundErrors fp cV (some mv) >>=
              fun a =>
                OverrideValidationService.maxBoundErrors fp cV (some xv) >>=
                  fun b => Except.ok (a ++ b)) >>= _ = _
          rw [hminEq, okBind, hmaxEq, okBind, okBind,
            allowedErrors_spec hav, okBind]
          simp only [constraintSpecErrors, hsc, hmn, hmx, hmq, hxq]

/-- C9: for a type-matching override value and a schema-accepted constraints
block, `_validate_constraints` returns exactly the error list the spec
describes: `min`/`max` compared against the value for `integer`/`float`,
against the length for `list`, ignored otherwise; `allowed_values` by
membership for every type; one `constraint_violation` per violated
constraint, so several can accumulate. -/
theorem claim_C9 (fp t : String) (v : Value) (c : PyDict)
    (hm : typeMatches (Value.vstr t) v = Except.ok true)
    (hminN : ∀ w, pyGet c "min" = some w → isNumericV w = true)
    (hmaxN : ∀ w, pyGet c "max" = some w → isNumericV w = true)
    (hav : ∀ w, pyGet c "allowed_values" = some w → ∃ l, w = Value.vlist l) :
    OverrideValidationService.validateConstraints fp (Value.vstr t) v c =
      Except.ok (constraintSpecErrors fp (Value.vstr t) v c) := by
  rcases comparableValue_spec hm with ⟨cV, q, hcv, hnum, hsc⟩ | ⟨hcv, hsc⟩
  · exact validateConstraints_spec_some hcv hnum hsc hminN hmaxN hav
  · exact validateConstraints_spec_none hcv hsc hav

/-- C9 witness: a float field with `min: 100` and `allowed_values` overridden
with `50.0` — two `constraint_violation` errors accumulate (below-min and
not-in-allowed-values). -/
theorem claim_C9_witness :
    OverrideValidationService.validateConstraints "payments.amount"
        (Value.vstr "float") (Value.vfloat 50)
        [("min", Value.vint 100),
         ("allowed_values", Value.vlist [Value.vint 200, Value.vint 300])] =
      Except.ok (constraintSpecErrors "payments.amount" (Value.vstr "float")
        (Value.vfloat 50)
        [("min", Value.vint 100),
         ("allowed_values", Value.vlist [Value.vint 200, Value.vint 300])]) ∧
    constraintSpecErrors "payments.amount" (Value.vstr "float")
        (Value.vfloat 50)
        [("min", Value.vint 100),
         ("allowed_values", Value.vlist [Value.vint 200, Value.vint 300])] =
      [ErrEntry.mk "payments.amount" "constraint_violation",
       ErrEntry.mk "payments.amount" "constraint_violation"] :=
  ⟨claim_C9 "payments.amount" "float" (Value.vfloat 50)
    [("min", Value.vint 100),
     ("allowed_values", Value.vlist [Value.vint 200, Value.vint 300])]
    rfl
    (fun w hw => by
      cases (show some (Value.vint 100) = some w from hw)
      rfl)
    (fun w hw => Option.noConfusion (show (none : Option Value) = some w from hw))
    (fun w hw => by
      cases (show some (Value.vlist [Value.vint 200, Value.vint 300]) = some w
        from hw)
      exact ⟨_, rfl⟩),
   by rfl⟩

lemma typeRule_ok (fp : String) {fdef : PyDict}
    (h1 : ∀ l, pyGet fdef "type" ≠ some (Value.vlist l))
    (h2 : ∀ m, pyGet fdef "type" ≠ some (Value.vdict m)) :
    ∃ tv, SchemaValidator.typeRule fp fdef = Except.ok tv := by
  have heq : SchemaValidator.typeRule fp fdef =
      (match pyGet fdef "type" with
       | none => Except.ok ([fp], none)
       | some dt => SchemaValidator.validTypeName dt >>= fun ok2 =>
           match dt, ok2 with
           | Value.vstr t, true => Except.ok (([] : List String), some t)
           | _, _ => Except.ok (([fp] : List String), (none : Option String))) :=
    rfl
  rw [heq]
  cases hdt : pyGet fdef "type" with
  | none => exact ⟨_, rfl⟩
  | some dt =>
      cases dt with
      | vlist l => exact absurd hdt (h1 l)
      | vdict m => exact absurd hdt (h2 m)
      | vstr s =>
          have hvt : SchemaValidator.validTypeName (Value.vstr s) =
              Except.ok (s == "string" || s == "integer" || s == "boolean" ||
                s == "float" || s == "list" || s == "dict") := rfl
          cases hb : (s == "string" || s == "integer" || s == "boolean" ||
              s == "float" || s == "list" || s == "dict") with
          | true =>
              refine ⟨([], some s), ?_⟩
              show (SchemaValidator.validTypeName (Value.vstr s) >>= fun ok2 =>
                match Value.vstr s, ok2 with
                | Value.vstr t, true => Except.ok (([] : List String), some t)
                | _, _ => Except.ok (([fp] : List String),
                    (none : Option String))) = _
              rw [hvt, hb, okBind]
          | false =>
              refine ⟨([fp], none), ?_⟩
              show (SchemaValidator.validTypeName (Value.vstr s) >>= fun ok2 =>
                match Value.vstr s, ok2 with
                | Value.vstr t, true => Except.ok (([] : List String), some t)
                | _, _ => Except.ok (([fp] : List String),
                    (none : Option String))) = _
              rw [hvt, hb, okBind]
      | vnone => exact ⟨_, rfl⟩
      | vbool b => exact ⟨_, rfl⟩
      | vint n => exact ⟨_, rfl⟩
      | vfloat q => exact ⟨_, rfl⟩

lemma validateField_ok {fp : String} {fdef : PyDict}
    (h1 : ∀ l, pyGet fdef "type" ≠ some (Value.vlist l))
    (h2 : ∀ m, pyGet fdef "type" ≠ some (Value.vdict m)) :
    ∃ es, SchemaValidator.validateField fp fdef = Except.ok es := by
  obtain ⟨tv, htv⟩ := typeRule_ok fp h1 h2
  refine ⟨tv.1 ++ SchemaValidator.defaultRuleErrs fp fdef tv.2 ++
    SchemaValidator.constraintsRuleErrs fp fdef ++
    SchemaValidator.policyRuleErrs fp fdef, ?_⟩
  unfold SchemaValidator.validateField
  rw [htv, okBind]

lemma fieldsErrors_hashable_ok {nsPath : String} :
    ∀ {fields : PyDict},
      (∀ q ∈ fields, ∀ fdef, q.2 = Value.vdict fdef →
        (∀ l, pyGet fdef "type" ≠ some (Value.vlist l)) ∧
        (∀ m, pyGet fdef "type" ≠ some (Value.vdict m))) →
      ∃ es, SchemaValidator.fieldsErrors nsPath fields = Except.ok es
  | [], _ => ⟨[], rfl⟩
  | (fn, fdefV) :: rest, h => by
      obtain ⟨tailE, htail⟩ :=
        fieldsErrors_hashable_ok (fun q hq => h q (List.mem_cons_of_mem _ hq))
      have hhere : ∃ es, SchemaValidator.fieldDefErrors (nsPath ++ "." ++ fn)
          fdefV = Except.ok es := by
        cases fdefV with
        | vdict fdef =>
            exact validateField_ok
              ((h (fn, Value.vdict fdef) (List.mem_cons_self _ _) fdef rfl).1)
              ((h (fn, Value.vdict fdef) (List.mem_cons_self _ _) fdef rfl).2)
        | vnone => exact ⟨_, rfl⟩
        | vbool b => exact ⟨_, rfl⟩
        | vint n => exact ⟨_, rfl⟩
        | vfloat q => exact ⟨_, rfl⟩
        | vstr s => exact ⟨_, rfl⟩
        | vlist l => exact ⟨_, rfl⟩
      obtain ⟨here, hhere2⟩ := hhere
      have heq : SchemaValidator.fieldsErrors nsPath ((fn, fdefV) :: rest) =
          (SchemaValidator.fieldDefErrors (nsPath ++ "." ++ fn) fdefV >>=
            fun here2 => SchemaValidator.fieldsErrors nsPath rest >>=
              fun tail2 => Except.ok (here2 ++ tail2)) := rfl
      rw [heq, hhere2, okBind, htail, okBind]
      exact ⟨_, rfl⟩

lemma namespaceErrors_hashable_ok {nsName : String} {nsV : Value}
    (h : hashableTypes nsV) :
    ∃ es, SchemaValidator.namespaceErrors nsName nsV = Except.ok es := by
  cases nsV with
  | vdict fields =>
      obtain ⟨es, hes⟩ := fieldsErrors_hashable_ok (h fields rfl)
      exact ⟨es, hes⟩
  | vnone => exact ⟨_, rfl⟩
  | vbool b => exact ⟨_, rfl⟩
  | vint n => exact ⟨_, rfl⟩
  | vfloat q => exact ⟨_, rfl⟩
  | vstr s => exact ⟨_, rfl⟩
  | vlist l => exact ⟨_, rfl⟩

lemma allNamespaceErrors_hashable_ok :
    ∀ {nss : PyDict}, (∀ p ∈ nss, hashableTypes p.2) →
    ∃ errs, SchemaValidator.allNamespaceErrors nss = Except.ok errs ∧
      ∀ p ∈ nss, ∀ es, SchemaValidator.namespaceErrors p.1 p.2 =
        Except.ok es → es ⊆ errs
  | [], _ => ⟨[], rfl, by simp⟩
  | (ns, nsV) :: rest, h => by
      obtain ⟨errs, he, hsub⟩ :=
        allNamespaceErrors_hashable_ok (fun p hp => h p (List.mem_cons_of_mem _ hp))
      obtain ⟨es1, h1⟩ :=
        @namespaceErrors_hashable_ok ns nsV
          (h (ns, nsV) (List.mem_cons_self _ _))
      have heq : SchemaValidator.allNamespaceErrors ((ns, nsV) :: rest) =
          (SchemaValidator.namespaceErrors ns nsV >>= fun here =>
            SchemaValidator.allNamespaceErrors rest >>= fun tail =>
              Except.ok (here ++ tail)) := rfl
      rw [heq, h1, okBind, he, okBind]
      refine ⟨es1 ++ errs, rfl, ?_⟩
      intro p hp es hpe
      rcases List.mem_cons.mp hp with hp1 | hp2
      · subst hp1
        rw [h1] at hpe
        obtain hes : es1 = es := by simpa using hpe
        subst hes
        exact List.subset_append_left _ _
      · exact (hsub p hp2 es hpe).trans (List.subset_append_right _ _)

/-- C7 (amended): the fatal early exits hold — a non-dict top level, a
missing `"namespaces"` key, a non-dict or empty `"namespaces"` value each
stop validation at once with exactly the single error `"namespaces"` — and
for inputs passing both checks whose field definitions store no list or dict
under `"type"` (a hashability proviso the original claim lacks), all
per-namespace and per-field errors are accumulated into one returned
result without any exception. -/
theorem claim_C7 :
    (∀ s : Value, (∀ d, s ≠ Value.vdict d) →
      SchemaValidator.validate s = Except.ok ["namespaces"]) ∧
    (∀ d : PyDict, lookupKey d "namespaces" = none →
      SchemaValidator.validate (Value.vdict d) = Except.ok ["namespaces"]) ∧
    (∀ (d : PyDict) (nsv : Value), lookupKey d "namespaces" = some nsv →
      (∀ nss, nsv ≠ Value.vdict nss) →
      SchemaValidator.validate (Value.vdict d) = Except.ok ["namespaces"]) ∧
    (∀ (d : PyDict) (nss : PyDict),
      lookupKey d "namespaces" = some (Value.vdict nss) → nss.isEmpty = true →
      SchemaValidator.validate (Value.vdict d) = Except.ok ["namespaces"]) ∧
    (∀ (d : PyDict) (nss : PyDict),
      lookupKey d "namespaces" = some (Value.vdict nss) → nss.isEmpty = false →
      (∀ p ∈ nss, hashableTypes p.2) →
      ∃ errs, SchemaValidator.validate (Value.vdict d) = Except.ok errs ∧
        ∀ p ∈ nss, ∀ es, SchemaValidator.namespaceErrors p.1 p.2 =
          Except.ok es → es ⊆ errs) := by
  refine ⟨?_, ?_, ?_, ?_, ?_⟩
  · intro s hs
    cases s with
    | vdict d => exact absurd rfl (hs d)
    | vnone => rfl
    | vbool b => rfl
    | vint n => rfl
    | vfloat q => rfl
    | vstr s2 => rfl
    | vlist l => rfl
  · intro d hn
    simp only [SchemaValidator.validate]
    rw [hn]
  · intro d nsv hn hnd
    simp only [SchemaValidator.validate]
    rw [hn]
    cases nsv with
    | vdict nss => exact absurd rfl (hnd nss)
    | vnone => rfl
    | vbool b => rfl
    | vint n => rfl
    | vfloat q => rfl
    | vstr s => rfl
    | vlist l => rfl
  · intro d nss hn he
    simp only [SchemaValidator.validate]
    rw [hn]
    show (if nss.isEmpty = true then Except.ok ["namespaces"]
      else SchemaValidator.allNamespaceErrors nss) = Except.ok ["namespaces"]
    rw [he]
    simp
  · intro d nss hn hne hh
    obtain ⟨errs, he, hsub⟩ := allNamespaceErrors_hashable_ok hh
    refine ⟨errs, ?_, hsub⟩
    have hval : SchemaValidator.validate (Value.vdict d) =
        SchemaValidator.allNamespaceErrors nss := by
      simp only [SchemaValidator.validate]
      rw [hn]
      show (if nss.isEmpty = true then Except.ok ["namespaces"]
        else SchemaValidator.allNamespaceErrors nss) =
        SchemaValidator.allNamespaceErrors nss
      rw [hne]
      simp
    rw [hval, he]

/-- C7 counterexample: a field whose `"type"` value is a list is unhashable
in CPython, so the `declared_type not in _VALID_TYPES` membership test raises
`TypeError` — the validator does throw a plain exception for this malformed
input type instead of reporting it as an error. -/
theorem claim_C7_counterexample :
    SchemaValidator.validate (Value.vdict
      [("namespaces", Value.vdict
        [("n", Value.vdict
          [("f", Value.vdict
            [("type", Value.vlist []), ("default", Value.vint 1)])])])]) =
      Except.error PyExn.typeError := rfl

/-- C7 witness: the early exits at a non-dict top level, a schema without
`"namespaces"`, a non-dict `"namespaces"`, an empty namespace map, and the
accumulation on a one-namespace schema with hashable `"type"` values. -/
theorem claim_C7_witness :
    SchemaValidator.validate (Value.vint 0) = Except.ok ["namespaces"] ∧
    SchemaValidator.validate (Value.vdict [("foo", Value.vint 1)]) =
      Except.ok ["namespaces"] ∧
    SchemaValidator.validate (Value.vdict [("namespaces", Value.vint 5)]) =
      Except.ok ["namespaces"] ∧
    SchemaValidator.validate (Value.vdict [("namespaces", Value.vdict [])]) =
      Except.ok ["namespaces"] ∧
    ∃ errs, SchemaValidator.validate (Value.vdict
        [("namespaces", Value.vdict [("n", Value.vdict [])])]) =
      Except.ok errs := by
  obtain ⟨h1, h2, h3, h4, h5⟩ := claim_C7
  refine ⟨h1 (Value.vint 0) (fun d h => Value.noConfusion h),
    h2 [("foo", Value.vint 1)] rfl,
    h3 [("namespaces", Value.vint 5)] (Value.vint 5) rfl
      (fun nss h => Value.noConfusion h),
    h4 [("namespaces", Value.vdict [])] [] rfl rfl, ?_⟩
  obtain ⟨errs, he, -⟩ := h5 [("namespaces", Value.vdict [("n", Value.vdict [])])]
    [("n", Value.vdict [])] rfl rfl
    (fun p hp => by
      simp only [List.mem_singleton] at hp
      subst hp
      intro fields0 heq q hq
      obtain h0 : fields0 = [] := by simpa using heq.symm
      subst h0
      cases hq)
  exact ⟨errs, he⟩

end ConfigEngine
